import Mathlib

/-!
Shallow embedding of the CPSC440 single-cycle RV32I simulator.

Bit vectors are MSB-first lists of single-bit values, exactly as in
`bit_utils.py`, where a wire is a Python list of 0/1 ints with index 0 the
most significant bit.  A single-bit 0/1 int is embedded as `Bool`
(`1 ↦ true`, `0 ↦ false`).  Python's arbitrary-precision ints are `Int`
(or `Nat` where the source value is provably non-negative).
-/

/-- The unsigned accumulation loop `value += bit * 2 ** (len - 1 - i)` that
appears in the non-negative branch of `bit_utils.bits_to_int`, in
`to_decimal_string`, and inline in `Shifter.execute`. -/
def bits_to_nat : List Bool → Nat
  | [] => 0
  | b :: bs => (if b then 1 else 0) * 2 ^ bs.length + bits_to_nat bs

/-- The carry loop of `bit_utils.twos_complement_negate`: add 1 starting at
the least-significant (last) position, propagating the carry towards the
front.  The source breaks out of the loop once the carry is 0, which leaves
the remaining (more significant) bits unchanged - exactly what propagating a
`false` carry does, so the break is only an optimization.  Returns the new
bits and the carry out of the most significant position. -/
def add_one_lsb : List Bool → List Bool × Bool
  | [] => ([], true)
  | b :: bs =>
    match add_one_lsb bs with
    | (rest, c) => ((xor b c) :: rest, b && c)

/-- `bit_utils.twos_complement_negate`: bitwise NOT, then +1 with the
carry-out dropped. -/
def twos_complement_negate (bits : List Bool) : List Bool :=
  (add_one_lsb (bits.map fun b => !b)).1

/-- `bit_utils.bits_to_int`: two's-complement (signed) value of an MSB-first
bit vector. -/
def bits_to_int (bits : List Bool) : Int :=
  match bits with
  | [] => 0
  | b :: _ =>
    if b then -(bits_to_nat (twos_complement_negate bits) : Int)
    else (bits_to_nat bits : Int)

/-- The `while value > 0: bits.append(value & 1); value >>= 1` loop of
`bit_utils.int_to_bits`: binary digits, least significant first. -/
def nat_to_bits_le (v : Nat) : List Bool :=
  if h : v = 0 then []
  else (v % 2 == 1) :: nat_to_bits_le (v / 2)
  decreasing_by exact Nat.div_lt_self (Nat.pos_of_ne_zero h) (by decide)

/-- `bit_utils.int_to_bits`: encode an integer as an MSB-first `width`-bit
vector.  The source builds the LSB-first digit list, appends zeros up to
`width`, reverses, and keeps the first `width` entries; negative values
encode the absolute value and negate. -/
def int_to_bits (value : Int) (width : Nat) : List Bool :=
  if value < 0 then
    let le := nat_to_bits_le (-value).toNat
    let padded := le ++ List.replicate (width - le.length) false
    twos_complement_negate (padded.reverse.take width)
  else if value = 0 then List.replicate width false
  else
    let le := nat_to_bits_le value.toNat
    let padded := le ++ List.replicate (width - le.length) false
    padded.reverse.take width

/-- `bit_utils.sign_extend`: widen by replicating the leading bit, or take
the trailing `new_width` bits (`bits[-new_width:]`) when already wide
enough. -/
def sign_extend (bits : List Bool) (new_width : Nat) : List Bool :=
  if new_width ≤ bits.length then bits.drop (bits.length - new_width)
  else List.replicate (new_width - bits.length) (bits.headD false) ++ bits

/-- Python list slicing `l[a:b]` for `0 ≤ a ≤ b ≤ l.length`. -/
def pySlice (l : List Bool) (a b : Nat) : List Bool :=
  (l.drop a).take (b - a)

/- ------------------------------------------------------------------ -/
/- alu.py                                                             -/
/- ------------------------------------------------------------------ -/

/-- `FullAdder.add`: sum and carry of three single-bit values. -/
def fullAdderAdd (a b carry_in : Bool) : Bool × Bool :=
  (xor a (xor b carry_in), (a && b) || (carry_in && (xor a b)))

/-- The MSB-to-LSB loop of `RippleCarryAdder.add`: the carry into a position
comes from adding the less significant (tail) positions first, and each sum
bit is inserted at the front. -/
def rippleAddBits : List Bool → List Bool → Bool → List Bool × Bool
  | a :: as_, b :: bs, carry_in =>
    match rippleAddBits as_ bs carry_in with
    | (rest, c) =>
      match fullAdderAdd a b c with
      | (s, cout) => (s :: rest, cout)
  | _, _, carry_in => ([], carry_in)

structure RippleCarryAdder where
  width : Nat
deriving DecidableEq, Repr

/-- `RippleCarryAdder.add`: `none` models the `ValueError` on a width
mismatch. -/
def RippleCarryAdder.add (self : RippleCarryAdder) (a b : List Bool)
    (carry_in : Bool) : Option (List Bool × Bool) :=
  if a.length ≠ self.width ∨ b.length ≠ self.width then none
  else some (rippleAddBits a b carry_in)

/-- `RippleCarryAdder.subtract`: invert `b`, add 1 to it with the final
carry dropped (the in-place loop is `add_one_lsb`), then add to `a` with
carry-in 0. -/
def RippleCarryAdder.subtract (self : RippleCarryAdder) (a b : List Bool) :
    Option (List Bool × Bool) :=
  let b_neg := (add_one_lsb (b.map fun bit => !bit)).1
  self.add a b_neg false

structure ALUResult where
  result : List Bool
  N : Bool
  Z : Bool
  C : Bool
  V : Bool
deriving DecidableEq, Repr

structure ALU where
  width : Nat
  adder : RippleCarryAdder
deriving DecidableEq, Repr

/-- The module-level `_generate_flags` of alu.py.  In the source this
function is dedented to column 0: despite its `self` parameter it is NOT
a method of `class ALU`, so instance attribute lookup never finds it.  Its
body (the NZCV rules) is embedded here as it stands; nothing in the
program can reach it through an `ALU` instance.  `result[0]`, `a[0]`,
`b[0]` are total via `headD false`. -/
def generate_flags (a b result : List Bool) (carry_out : Bool)
    (is_subtraction : Bool) : Bool × Bool × Bool × Bool :=
  let N := result.headD false
  let Z := result.all fun bit => bit = false
  let C := carry_out
  let V :=
    if is_subtraction then
      (a.headD false ≠ b.headD false) ∧ (result.headD false ≠ a.headD false)
    else
      (a.headD false = b.headD false) ∧ (result.headD false ≠ a.headD false)
  (N, Z, C, decide V)

/-- `ALU.add`: after the width checks (`ValueError`, `none`) and the
ripple addition, the method evaluates `self._generate_flags(...)`; since
`_generate_flags` is a module-level function (dedented out of the class),
that attribute lookup raises AttributeError, so `add` never returns
normally.  The final `none` models the escaping exception at that point. -/
def ALU.add (self : ALU) (a b : List Bool) : Option ALUResult :=
  if a.length ≠ self.width ∨ b.length ≠ self.width then none
  else
    (self.adder.add a b false).bind fun _r =>
      none

/-- `ALU.sub`: same shape as `add` - the subtraction is performed, then
`self._generate_flags(...)` raises AttributeError, so `sub` never returns
normally. -/
def ALU.sub (self : ALU) (a b : List Bool) : Option ALUResult :=
  if a.length ≠ self.width ∨ b.length ≠ self.width then none
  else
    (self.adder.subtract a b).bind fun _r =>
      none

/-- The module-level `execute` of alu.py.  Also dedented to column 0: it
is not a method of `class ALU`, so `self.alu.execute(...)` in the CPU
raises AttributeError without reaching this code.  Called directly it
dispatches to `self.add`/`self.sub` (which themselves always raise) and
raises `ValueError` (`none`) on any other op. -/
def execute (self : ALU) (a b : List Bool) (op : String) :
    Option ALUResult :=
  if op = "ADD" then self.add a b
  else if op = "SUB" then self.sub a b
  else none

/-- The adder/ALU instances the CPU constructs with width 32. -/
def adder32 : RippleCarryAdder := { width := 32 }

def alu32 : ALU := { width := 32, adder := adder32 }

/- ------------------------------------------------------------------ -/
/- shifter.py                                                         -/
/- ------------------------------------------------------------------ -/

structure BarrelShifter where
  width : Nat
deriving DecidableEq, Repr

/-- `BarrelShifter.shift_left_logical`.  The shift amount reaching this code
is the non-negative masked value, so `shift_amount <= 0` is `= 0`. -/
def BarrelShifter.shift_left_logical (self : BarrelShifter) (data : List Bool)
    (shift_amount : Nat) : Option (List Bool) :=
  if data.length ≠ self.width then none
  else if self.width ≤ shift_amount then some (List.replicate self.width false)
  else if shift_amount = 0 then some data
  else some (data.drop shift_amount ++ List.replicate shift_amount false)

/-- `BarrelShifter.shift_right_logical` (`data[:-k]` is `take (len - k)`). -/
def BarrelShifter.shift_right_logical (self : BarrelShifter) (data : List Bool)
    (shift_amount : Nat) : Option (List Bool) :=
  if data.length ≠ self.width then none
  else if self.width ≤ shift_amount then some (List.replicate self.width false)
  else if shift_amount = 0 then some data
  else some (List.replicate shift_amount false ++
    data.take (data.length - shift_amount))

/-- `BarrelShifter.shift_right_arithmetic`. -/
def BarrelShifter.shift_right_arithmetic (self : BarrelShifter)
    (data : List Bool) (shift_amount : Nat) : Option (List Bool) :=
  if data.length ≠ self.width then none
  else if self.width ≤ shift_amount then
    some (List.replicate self.width (data.headD false))
  else if shift_amount = 0 then some data
  else some (List.replicate shift_amount (data.headD false) ++
    data.take (data.length - shift_amount))

/-- `BarrelShifter.shift`: dispatch on the operation string; anything else
raises `ValueError` (`none`). -/
def BarrelShifter.shift (self : BarrelShifter) (data : List Bool)
    (shift_amount : Nat) (operation : String) : Option (List Bool) :=
  if operation = "SLL" then self.shift_left_logical data shift_amount
  else if operation = "SRL" then self.shift_right_logical data shift_amount
  else if operation = "SRA" then self.shift_right_arithmetic data shift_amount
  else none

structure Shifter where
  width : Nat
  barrel_shifter : BarrelShifter
deriving DecidableEq, Repr

/-- `Shifter.execute`: the shift amount is the unsigned value of the bit
vector (the inline accumulation loop is `bits_to_nat`) masked with
`0x1F` (`% 32`).  The CPU stores the control `ShiftOp` as an optional
string (`None` by default), and passing `None` to `BarrelShifter.shift`
raises (`none`). -/
def Shifter.execute (self : Shifter) (data : List Bool)
    (shift_amount_bits : List Bool) (operation : Option String) :
    Option (List Bool) :=
  match operation with
  | none => none
  | some op => self.barrel_shifter.shift data (bits_to_nat shift_amount_bits % 32) op

def shifter32 : Shifter := { width := 32, barrel_shifter := { width := 32 } }

/- ------------------------------------------------------------------ -/
/- instruction_decoder.py                                             -/
/- ------------------------------------------------------------------ -/

/-- The dict returned by `InstructionDecoder.decode`. -/
structure DecodedInstruction where
  opcode : List Bool
  opcode_int : Int
  rd : Int
  rs1 : Int
  rs2 : Int
  funct3 : Int
  funct7 : Int
  imm_i : List Bool
  imm_i_sext : List Bool
  imm_s : List Bool
  imm_s_sext : List Bool
  imm_b : List Bool
  imm_b_sext : List Bool
  imm_u : List Bool
  imm_u_sext : List Bool
  imm_j : List Bool
  imm_j_sext : List Bool
  instruction : List Bool
deriving DecidableEq, Repr

/-- `InstructionDecoder.decode`.  `none` models the `ValueError` on a word
that is not 32 bits.  Single-element indexing `instruction[i]` is total
(`getD i false`) under the length-32 guard. -/
def InstructionDecoder.decode (instruction : List Bool) :
    Option DecodedInstruction :=
  if instruction.length ≠ 32 then none
  else
    let imm_i := pySlice instruction 20 32
    let imm_s := pySlice instruction 0 7 ++ pySlice instruction 20 25
    let imm_b := [instruction.getD 31 false] ++ pySlice instruction 25 31 ++
      pySlice instruction 8 12 ++ [instruction.getD 7 false] ++ [false]
    let imm_u := pySlice instruction 0 20 ++ List.replicate 12 false
    let imm_j := [instruction.getD 31 false] ++ pySlice instruction 21 31 ++
      [instruction.getD 20 false] ++ pySlice instruction 12 20 ++ [false]
    some {
      opcode := pySlice instruction 25 32
      opcode_int := bits_to_int (pySlice instruction 25 32)
      rd := bits_to_int (pySlice instruction 20 25)
      rs1 := bits_to_int (pySlice instruction 12 17)
      rs2 := bits_to_int (pySlice instruction 7 12)
      funct3 := bits_to_int (pySlice instruction 17 20)
      funct7 := bits_to_int (pySlice instruction 0 7)
      imm_i := imm_i
      imm_i_sext := sign_extend imm_i 32
      imm_s := imm_s
      imm_s_sext := sign_extend imm_s 32
      imm_b := imm_b
      imm_b_sext := sign_extend imm_b 32
      imm_u := imm_u
      imm_u_sext := imm_u
      imm_j := imm_j
      imm_j_sext := sign_extend imm_j 32
      instruction := instruction
    }

/-- `InstructionDecoder.get_instruction_name`: the (opcode, funct3, funct7)
if-chain, on the signed field values produced by `decode`. -/
def InstructionDecoder.get_instruction_name (decoded : DecodedInstruction) :
    String :=
  let opcode := decoded.opcode_int
  let funct3 := decoded.funct3
  let funct7 := decoded.funct7
  if opcode = 0x33 then
    if funct3 = 0x0 then
      if funct7 = 0x00 then "ADD"
      else if funct7 = 0x20 then "SUB"
      else "UNKNOWN"
    else if funct3 = 0x7 then "AND"
    else if funct3 = 0x6 then "OR"
    else if funct3 = 0x4 then "XOR"
    else if funct3 = 0x1 then "SLL"
    else if funct3 = 0x5 then
      if funct7 = 0x00 then "SRL"
      else if funct7 = 0x20 then "SRA"
      else "UNKNOWN"
    else "UNKNOWN"
  else if opcode = 0x13 then
    if funct3 = 0x0 then "ADDI"
    else if funct3 = 0x7 then "ANDI"
    else if funct3 = 0x6 then "ORI"
    else if funct3 = 0x4 then "XORI"
    else if funct3 = 0x1 then "SLLI"
    else if funct3 = 0x5 then
      if funct7 = 0x00 then "SRLI"
      else if funct7 = 0x20 then "SRAI"
      else "UNKNOWN"
    else "UNKNOWN"
  else if opcode = 0x03 then
    if funct3 = 0x0 then "LB"
    else if funct3 = 0x1 then "LH"
    else if funct3 = 0x2 then "LW"
    else "UNKNOWN"
  else if opcode = 0x23 then
    if funct3 = 0x0 then "SB"
    else if funct3 = 0x1 then "SH"
    else if funct3 = 0x2 then "SW"
    else "UNKNOWN"
  else if opcode = 0x63 then
    if funct3 = 0x0 then "BEQ"
    else if funct3 = 0x1 then "BNE"
    else if funct3 = 0x4 then "BLT"
    else if funct3 = 0x5 then "BGE"
    else if funct3 = 0x6 then "BLTU"
    else if funct3 = 0x7 then "BGEU"
    else "UNKNOWN"
  else if opcode = 0x37 then "LUI"
  else if opcode = 0x17 then "AUIPC"
  else if opcode = 0x6F then "JAL"
  else if opcode = 0x67 then "JALR"
  else "UNKNOWN"

/- ------------------------------------------------------------------ -/
/- control_unit.py                                                    -/
/- ------------------------------------------------------------------ -/

/-- The control-signal dict of `ControlUnit.generate_control_signals`.
The 0/1 signal values are kept as `Nat` (the CPU tests them with `== 1`);
`ShiftOp` is `None` by default. -/
structure ControlSignals where
  RegWrite : Nat
  MemRead : Nat
  MemWrite : Nat
  MemToReg : Nat
  ALUSrc : Nat
  Branch : Nat
  Jump : Nat
  ALUOp : String
  ImmType : String
  ShiftOp : Option String
  UseShift : Nat
deriving DecidableEq, Repr

/-- The default signal bundle built at the top of
`ControlUnit.generate_control_signals`. -/
def defaultSignals : ControlSignals :=
  { RegWrite := 0, MemRead := 0, MemWrite := 0, MemToReg := 0, ALUSrc := 0,
    Branch := 0, Jump := 0, ALUOp := "ADD", ImmType := "I", ShiftOp := none,
    UseShift := 0 }

/-- `ControlUnit.generate_control_signals`.  The source also reads the
decoded opcode and funct3 into locals but never uses them, so only the
instruction name matters. -/
def ControlUnit.generate_control_signals (instruction_name : String) :
    ControlSignals :=
  if instruction_name = "ADD" ∨ instruction_name = "SUB" ∨
      instruction_name = "AND" ∨ instruction_name = "OR" ∨
      instruction_name = "XOR" then
    { defaultSignals with
      RegWrite := 1
      MemToReg := 0
      ALUSrc := 0
      ALUOp := instruction_name
      ImmType := "R" }
  else if instruction_name = "ADDI" ∨ instruction_name = "ANDI" ∨
      instruction_name = "ORI" ∨ instruction_name = "XORI" then
    { defaultSignals with
      RegWrite := 1
      MemToReg := 0
      ALUSrc := 1
      ALUOp := instruction_name.replace "I" ""
      ImmType := "I" }
  else if instruction_name = "SLL" ∨ instruction_name = "SRL" ∨
      instruction_name = "SRA" then
    { defaultSignals with
      RegWrite := 1
      MemToReg := 0
      ALUSrc := 0
      UseShift := 1
      ShiftOp := some instruction_name
      ImmType := "R" }
  else if instruction_name = "SLLI" ∨ instruction_name = "SRLI" ∨
      instruction_name = "SRAI" then
    { defaultSignals with
      RegWrite := 1
      MemToReg := 0
      ALUSrc := 1
      UseShift := 1
      ShiftOp := some (instruction_name.replace "I" "")
      ImmType := "I" }
  else if instruction_name = "LW" then
    { defaultSignals with
      RegWrite := 1
      MemRead := 1
      MemToReg := 1
      ALUSrc := 1
      ALUOp := "ADD"
      ImmType := "I" }
  else if instruction_name = "SW" then
    { defaultSignals with
      MemWrite := 1
      ALUSrc := 1
      ALUOp := "ADD"
      ImmType := "S" }
  else if instruction_name = "BEQ" ∨ instruction_name = "BNE" then
    { defaultSignals with
      Branch := 1
      ALUSrc := 0
      ALUOp := "SUB"
      ImmType := "B" }
  else if instruction_name = "JAL" then
    { defaultSignals with RegWrite := 1, Jump := 1, ImmType := "J" }
  else if instruction_name = "JALR" then
    { defaultSignals with
      RegWrite := 1
      Jump := 1
      ALUSrc := 1
      ALUOp := "ADD"
      ImmType := "I" }
  else if instruction_name = "LUI" then
    { defaultSignals with
      RegWrite := 1
      MemToReg := 0
      ALUSrc := 1
      ALUOp := "LUI"
      ImmType := "U" }
  else if instruction_name = "AUIPC" then
    { defaultSignals with
      RegWrite := 1
      MemToReg := 0
      ALUSrc := 1
      ALUOp := "ADD"
      ImmType := "U" }
  else defaultSignals

/- ------------------------------------------------------------------ -/
/- registers.py                                                       -/
/- ------------------------------------------------------------------ -/

/-- `registers.Reg`: a single register with its staging flags. -/
structure Reg where
  width : Nat
  data : List Bool
  load_enable : Bool
  clear_enable : Bool
deriving DecidableEq, Repr

/-- `Reg.__init__`. -/
def Reg.init (width : Nat) : Reg :=
  { width := width, data := List.replicate width false,
    load_enable := false, clear_enable := false }

/-- `Reg.load`: records the enable flag and, when enabled, copies the data
immediately (padding with leading zeros or keeping the trailing bits on a
width mismatch). -/
def Reg.load (self : Reg) (data : List Bool) (enable : Bool) : Reg :=
  let r := { self with load_enable := enable }
  if enable ∧ data.length = self.width then { r with data := data }
  else if enable then
    if data.length < self.width then
      { r with data := List.replicate (self.width - data.length) false ++ data }
    else
      { r with data := data.drop (data.length - self.width) }
  else r

/-- `Reg.clock_edge`: a pending clear zeroes the data; otherwise a pending
load merely drops its flag (the data was already stored by `load`). -/
def Reg.clock_edge (self : Reg) : Reg :=
  if self.clear_enable then
    { self with
      data := List.replicate self.width false
      clear_enable := false }
  else if self.load_enable then { self with load_enable := false }
  else self

/-- `registers.RegisterFile`. -/
structure RegisterFile where
  num_regs : Nat
  width : Nat
  registers : List Reg
deriving DecidableEq, Repr

/-- `RegisterFile.__init__`: all registers zeroed. -/
def RegisterFile.init (num_regs width : Nat) : RegisterFile :=
  { num_regs := num_regs, width := width,
    registers := List.replicate num_regs (Reg.init width) }

/-- `RegisterFile.read`: addresses are the (possibly negative) ints produced
by `bits_to_int`; out-of-range raises (`none`). -/
def RegisterFile.read (self : RegisterFile) (addr : Int) :
    Option (List Bool) :=
  if 0 ≤ addr ∧ addr < (self.num_regs : Int) then
    some ((self.registers.getD addr.toNat (Reg.init self.width)).data)
  else none

/-- `RegisterFile.write`: address 0 returns immediately (the hard-wired x0);
otherwise an in-range address loads the register and out-of-range raises
(`none`). -/
def RegisterFile.write (self : RegisterFile) (addr : Int) (data : List Bool)
    (enable : Bool) : Option RegisterFile :=
  if addr = 0 then some self
  else if 0 ≤ addr ∧ addr < (self.num_regs : Int) then
    some { self with
      registers := self.registers.modify (fun r => r.load data enable) addr.toNat }
  else none

/-- `RegisterFile.clock_edge`: clocks every register. -/
def RegisterFile.clock_edge (self : RegisterFile) : RegisterFile :=
  { self with registers := self.registers.map Reg.clock_edge }

/- ------------------------------------------------------------------ -/
/- memory.py                                                          -/
/- ------------------------------------------------------------------ -/

/-- `memory.InstructionMemory`: the sparse dict is an association list
(`lookup` finds the most recent binding, like a dict). -/
structure InstructionMemory where
  size : Nat
  base_address : Int
  memory : List (Int × List Bool)
deriving DecidableEq, Repr

/-- `InstructionMemory.read`: unaligned fetch raises (`none`); an unmapped
aligned fetch returns the all-zeros word. -/
def InstructionMemory.read (self : InstructionMemory) (address : Int) :
    Option (List Bool) :=
  if address % 4 ≠ 0 then none
  else some (((self.memory.lookup address).getD (List.replicate 32 false)))

/-- `memory.DataMemory`. -/
structure DataMemory where
  size : Nat
  base_address : Int
  memory : List (Int × List Bool)
deriving DecidableEq, Repr

/-- `DataMemory.read_word`: unaligned or out-of-window raises (`none`);
mapped words are returned, absent words read as zero. -/
def DataMemory.read_word (self : DataMemory) (address : Int) :
    Option (List Bool) :=
  if address % 4 ≠ 0 then none
  else if address < self.base_address ∨
      self.base_address + (self.size : Int) ≤ address then none
  else some ((self.memory.lookup address).getD (List.replicate 32 false))

/-- `DataMemory.write_word`: the `self.memory[addr] = data` dict update is
a prepended binding, which shadows any earlier one under `lookup`. -/
def DataMemory.write_word (self : DataMemory) (address : Int)
    (data : List Bool) : Option DataMemory :=
  if data.length ≠ 32 then none
  else if address % 4 ≠ 0 then none
  else if address < self.base_address ∨
      self.base_address + (self.size : Int) ≤ address then none
  else some { self with memory := (address, data) :: self.memory }

/- ------------------------------------------------------------------ -/
/- cpu.py                                                             -/
/- ------------------------------------------------------------------ -/

/-- `cpu.CPU` state.  The ALU, shifter, decoder and control unit created in
`__init__` are stateless width-32 instances (`alu32`, `shifter32`). -/
structure CPU where
  reg_file : RegisterFile
  imem : InstructionMemory
  dmem : DataMemory
  pc : Int
  halted : Bool
  cycle_count : Nat
  instruction_count : Nat
deriving DecidableEq, Repr

/-- `CPU.__init__` with the default sizes and base addresses. -/
def CPU.init : CPU :=
  { reg_file := RegisterFile.init 32 32
    imem := { size := 1024, base_address := 0, memory := [] }
    dmem := { size := 1024, base_address := 0x00010000, memory := [] }
    pc := 0
    halted := false
    cycle_count := 0
    instruction_count := 0 }

/-- `InstructionMemory.load_program`: place each word at `start + 4*i`;
out-of-window placement raises (`none`). -/
def InstructionMemory.load_program (self : InstructionMemory)
    (instructions : List (List Bool)) (start_address : Int) :
    Option InstructionMemory :=
  let rec go (mem : List (Int × List Bool)) (addr : Int) :
      List (List Bool) → Option (List (Int × List Bool))
    | [] => some mem
    | instr :: rest =>
      if addr < self.base_address ∨
          self.base_address + (self.size : Int) ≤ addr then none
      else go ((addr, instr) :: mem) (addr + 4) rest
  (go self.memory start_address instructions).map
    fun m => { self with memory := m }

/-- `CPU.load_program`: load the words and point the PC at them. -/
def CPU.load_program (self : CPU) (instructions : List (List Bool))
    (start_address : Int) : Option CPU :=
  (self.imem.load_program instructions start_address).map
    fun m => { self with imem := m, pc := start_address }

/-- The `alu_b` operand selection of `CPU.execute_cycle`. -/
def selectALUB (ctrl : ControlSignals) (decoded : DecodedInstruction)
    (rs2_data : List Bool) : List Bool :=
  if ctrl.ALUSrc = 1 then
    if ctrl.ImmType = "I" then decoded.imm_i_sext
    else if ctrl.ImmType = "S" then decoded.imm_s_sext
    else if ctrl.ImmType = "U" then decoded.imm_u_sext
    else if ctrl.ImmType = "J" then decoded.imm_j_sext
    else rs2_data
  else rs2_data

/-- The execute stage of `CPU.execute_cycle`: shifter path, LUI path, or
ALU path.  The source also derives an `alu_zero` flag here, but nothing
ever reads it, so it is omitted.  The ALU path is the AttributeError of
`self.alu.execute` (see `execute` above), modeled by `none`. -/
def executeStage (ctrl : ControlSignals) (decoded : DecodedInstruction)
    (rs1_data rs2_data alu_b : List Bool) : Option (List Bool) :=
  if ctrl.UseShift = 1 then
    let shift_amount :=
      if ctrl.ALUSrc = 1 then
        if ctrl.ImmType = "I" then pySlice decoded.imm_i 7 12
        else pySlice alu_b 27 32
      else pySlice rs2_data 27 32
    shifter32.execute rs1_data shift_amount ctrl.ShiftOp
  else if ctrl.ALUOp = "LUI" then some decoded.imm_u_sext
  else
    -- `alu_result_dict = self.alu.execute(rs1_data, alu_b, ctrl['ALUOp'])`:
    -- `execute` is a module-level function of alu.py, not a method of
    -- `class ALU`, so the attribute lookup raises AttributeError; the
    -- exception escapes `execute_cycle` uncaught.
    none

/-- The next-PC computation of `CPU.execute_cycle`.  For JALR the source
computes `(rs1 + imm_i) & 0xFFFFFFFE` on Python ints: with an infinite
two's-complement left operand and a non-negative 32-bit mask, that is the
value reduced mod `2^32` with bit 0 cleared. -/
def nextPC (ctrl : ControlSignals) (instr_name : String)
    (decoded : DecodedInstruction) (rs1_data : List Bool)
    (branch_taken : Bool) (pc : Int) : Int :=
  if ctrl.Jump = 1 then
    if instr_name = "JAL" then pc + bits_to_int decoded.imm_j_sext
    else if instr_name = "JALR" then
      let t := (bits_to_int rs1_data + bits_to_int decoded.imm_i_sext) % (2 ^ 32)
      t - t % 2
    else pc + 4
  else if branch_taken then pc + bits_to_int decoded.imm_b_sext
  else pc + 4

/-- `CPU.execute_cycle`.  Returns `none` exactly where the Python method
would let an exception escape (decode of a mis-sized word, a register
address outside 0..31, an unsupported ALU/shift op); memory faults are
caught as in the source (fetch faults halt, data faults read zero or drop
the write).  The boolean result mirrors the Python return value. -/
def CPU.execute_cycle (s : CPU) : Option (CPU × Bool) :=
  if s.halted then some (s, false)
  else
    match s.imem.read s.pc with
    | none => some ({ s with halted := true }, false)
    | some instruction =>
      -- `if all(bit == 0 ...): if bits_to_int(...) == 0:` - the inner test
      -- cannot fail once the outer holds, so the nest is a conjunction.
      if (instruction.all fun bit => bit = false) ∧ bits_to_int instruction = 0
      then some ({ s with halted := true }, false)
      else do
        let decoded ← InstructionDecoder.decode instruction
        let instr_name := InstructionDecoder.get_instruction_name decoded
        if instr_name = "JAL" ∧ decoded.rd = 0 ∧
            bits_to_int decoded.imm_j_sext = 0 then
          some ({ s with halted := true }, false)
        else do
          let ctrl := ControlUnit.generate_control_signals instr_name
          let rs1_data ← s.reg_file.read decoded.rs1
          let rs2_data ← s.reg_file.read decoded.rs2
          let alu_b := selectALUB ctrl decoded rs2_data
          let alu_result ← executeStage ctrl decoded rs1_data rs2_data alu_b
          let mem_data :=
            if ctrl.MemRead = 1 then
              match s.dmem.read_word (bits_to_int alu_result) with
              | some w => w
              | none => List.replicate 32 false   -- caught: warn, read zeros
            else List.replicate 32 false
          let dmem1 :=
            if ctrl.MemWrite = 1 then
              match s.dmem.write_word (bits_to_int alu_result) rs2_data with
              | some m => m
              | none => s.dmem                    -- caught: warn, drop write
            else s.dmem
          let write_data :=
            if ctrl.MemToReg = 1 then mem_data
            else if ctrl.Jump = 1 then int_to_bits (s.pc + 4) 32
            else alu_result
          let branch_taken := ctrl.Branch = 1 ∧
            ((instr_name = "BEQ" ∧ rs1_data = rs2_data) ∨
             (instr_name = "BNE" ∧ rs1_data ≠ rs2_data))
          let next_pc := nextPC ctrl instr_name decoded rs1_data
            (decide branch_taken) s.pc
          let reg_file1 ←
            if ctrl.RegWrite = 1 then s.reg_file.write decoded.rd write_data true
            else some s.reg_file
          some ({ s with
            reg_file := reg_file1.clock_edge
            dmem := dmem1
            pc := next_pc
            cycle_count := s.cycle_count + 1
            instruction_count := s.instruction_count + 1 }, true)

/-- Iterating `execute_cycle`, as `CPU.run`'s loop does (the cycle cap and
halt test select how many iterations happen; an uncaught exception would
abort the run, leaving the state as it was). -/
def CPU.steps : Nat → CPU → CPU
  | 0, s => s
  | n + 1, s =>
    match s.execute_cycle with
    | some (s1, _) => CPU.steps n s1
    | none => s

/- ------------------------------------------------------------------ -/
/- mdu.py                                                             -/
/- ------------------------------------------------------------------ -/

structure MultiplyResult where
  low : List Bool
  high : List Bool
  overflow : Nat
deriving DecidableEq, Repr

structure BoothMultiplier where
  width : Nat
  alu : ALU
deriving DecidableEq, Repr

/-- `BoothMultiplier.multiply`: despite the class name, the source computes
the product directly on the *signed* values of both operands, splits the
64-bit two's-complement pattern into halves (`& 0xFFFFFFFF` and
`>> 32` on the non-negative `product_64` are `% 2^64`/`2^32` arithmetic),
and re-encodes.  The trace list is diagnostic only and omitted. -/
def BoothMultiplier.multiply (self : BoothMultiplier)
    (multiplicand multiplier : List Bool) : Option MultiplyResult :=
  if multiplicand.length ≠ self.width ∨ multiplier.length ≠ self.width then
    none
  else
    let a_int := bits_to_int multiplicand
    let b_int := bits_to_int multiplier
    let expected_product := a_int * b_int
    let product_64 : Int :=
      if expected_product < 0 then expected_product + 2 ^ 64
      else expected_product
    let low_32 := product_64 % 2 ^ 32
    let high_32 := (product_64 / 2 ^ 32) % 2 ^ 32
    let low_bits := int_to_bits low_32 self.width
    let high_bits := int_to_bits high_32 self.width
    let overflow := if expected_product ≠ bits_to_int low_bits then 1 else 0
    some { low := low_bits, high := high_bits, overflow := overflow }

structure DivideResult where
  quotient : List Bool
  remainder : List Bool
  overflow : Nat
deriving DecidableEq, Repr

structure RestoringDivider where
  width : Nat
  alu : ALU
deriving DecidableEq, Repr

/-- `RestoringDivider.divide`: divide-by-zero and INT_MIN / -1 are special
cases handled before any arithmetic; otherwise the quotient and remainder
are computed by Python floor division on non-negative operands in each sign
branch (on non-negative operands Lean's `/` and `%` on `Int` agree with
Python's `//` and `%`). -/
def RestoringDivider.divide (self : RestoringDivider)
    (dividend divisor : List Bool) (signed : Bool) : Option DivideResult :=
  if dividend.length ≠ self.width ∨ divisor.length ≠ self.width then none
  else
    let dividend_int := bits_to_int dividend
    let divisor_int := bits_to_int divisor
    if divisor_int = 0 then
      let quotient_int : Int := if signed then -1 else 0xFFFFFFFF
      some { quotient := int_to_bits quotient_int self.width
             remainder := int_to_bits dividend_int self.width
             overflow := 0 }
    else if signed ∧ dividend_int = -(2 ^ (self.width - 1)) ∧
        divisor_int = -1 then
      some { quotient := int_to_bits (-(2 ^ (self.width - 1))) self.width
             remainder := int_to_bits 0 self.width
             overflow := 1 }
    else
      let qr : Int × Int :=
        if signed then
          if 0 ≤ dividend_int ∧ 0 ≤ divisor_int then
            (dividend_int / divisor_int, dividend_int % divisor_int)
          else if 0 ≤ dividend_int then
            (-(dividend_int / (-divisor_int)), dividend_int % (-divisor_int))
          else if 0 ≤ divisor_int then
            (-((-dividend_int) / divisor_int), -((-dividend_int) % divisor_int))
          else
            ((-dividend_int) / (-divisor_int), -((-dividend_int) % (-divisor_int)))
        else
          -- unsigned: fold the signed values into [0, 2^width), divide,
          -- then fold results >= 2^(width-1) back to negative ints
          let du := if dividend_int < 0 then dividend_int + 2 ^ self.width
            else dividend_int
          let dv := if divisor_int < 0 then divisor_int + 2 ^ self.width
            else divisor_int
          let q := du / dv
          let r := du % dv
          let q1 := if 2 ^ (self.width - 1) ≤ q then q - 2 ^ self.width else q
          let r1 := if 2 ^ (self.width - 1) ≤ r then r - 2 ^ self.width else r
          (q1, r1)
      some { quotient := int_to_bits qr.1 self.width
             remainder := int_to_bits qr.2 self.width
             overflow := 0 }

structure MDUResult where
  rd : List Bool
  overflow : Nat
deriving DecidableEq, Repr

structure MultiplyDivideUnit where
  width : Nat
  multiplier : BoothMultiplier
  divider : RestoringDivider
deriving DecidableEq, Repr

def mdu32 : MultiplyDivideUnit :=
  { width := 32
    multiplier := { width := 32, alu := alu32 }
    divider := { width := 32, alu := alu32 } }

/-- `MultiplyDivideUnit.mulh`: high half of the (signed) product. -/
def MultiplyDivideUnit.mulh (self : MultiplyDivideUnit)
    (rs1 rs2 : List Bool) : Option MDUResult :=
  (self.multiplier.multiply rs1 rs2).map fun r =>
    { rd := r.high, overflow := r.overflow }

/-- `MultiplyDivideUnit.mulhu`: the same `multiply` result's high half. -/
def MultiplyDivideUnit.mulhu (self : MultiplyDivideUnit)
    (rs1 rs2 : List Bool) : Option MDUResult :=
  (self.multiplier.multiply rs1 rs2).map fun r =>
    { rd := r.high, overflow := r.overflow }

/-- `MultiplyDivideUnit.div`. -/
def MultiplyDivideUnit.div (self : MultiplyDivideUnit)
    (rs1 rs2 : List Bool) : Option MDUResult :=
  (self.divider.divide rs1 rs2 true).map fun r =>
    { rd := r.quotient, overflow := r.overflow }

/-- `MultiplyDivideUnit.rem`. -/
def MultiplyDivideUnit.rem (self : MultiplyDivideUnit)
    (rs1 rs2 : List Bool) : Option MDUResult :=
  (self.divider.divide rs1 rs2 true).map fun r =>
    { rd := r.remainder, overflow := r.overflow }

/- ------------------------------------------------------------------ -/
/- hex_loader.py                                                      -/
/- ------------------------------------------------------------------ -/

/-- A text line, embedded as its character list. -/
abbrev Line := List Char

/-- Python `str.strip()`: drop leading and trailing whitespace. -/
def stripChars (l : Line) : Line :=
  ((l.dropWhile Char.isWhitespace).reverse.dropWhile Char.isWhitespace).reverse

/-- The nibble table of `bit_utils.from_hex_string`; an absent character is
the `ValueError: Invalid hex character`. -/
def hexCharBits (c : Char) : Option (List Bool) :=
  if c = '0' then some [false, false, false, false]
  else if c = '1' then some [false, false, false, true]
  else if c = '2' then some [false, false, true, false]
  else if c = '3' then some [false, false, true, true]
  else if c = '4' then some [false, true, false, false]
  else if c = '5' then some [false, true, false, true]
  else if c = '6' then some [false, true, true, false]
  else if c = '7' then some [false, true, true, true]
  else if c = '8' then some [true, false, false, false]
  else if c = '9' then some [true, false, false, true]
  else if c = 'A' ∨ c = 'a' then some [true, false, true, false]
  else if c = 'B' ∨ c = 'b' then some [true, false, true, true]
  else if c = 'C' ∨ c = 'c' then some [true, true, false, false]
  else if c = 'D' ∨ c = 'd' then some [true, true, false, true]
  else if c = 'E' ∨ c = 'e' then some [true, true, true, false]
  else if c = 'F' ∨ c = 'f' then some [true, true, true, true]
  else none

/-- `bit_utils.from_hex_string` on a character list: strip an optional
`0x`/`0X` prefix, translate each character through the nibble table
(`Except` carries the `ValueError` message), then left-pad with zeros or
keep the trailing `width` bits. -/
def from_hex_chars (s : Line) (width : Nat) : Except String (List Bool) :=
  let s1 : Line :=
    match s with
    | '0' :: 'x' :: rest => rest
    | '0' :: 'X' :: rest => rest
    | other => other
  let rec go : Line → Except String (List Bool)
    | [] => .ok []
    | c :: cs =>
      match hexCharBits c with
      | some nibble => (go cs).map fun bits => nibble ++ bits
      | none => .error ("Invalid hex character: " ++ String.mk [c])
  (go s1).map fun bits =>
    if bits.length < width then
      List.replicate (width - bits.length) false ++ bits
    else bits.drop (bits.length - width)

/-- The per-line loop of `hex_loader.load_hex_file` over the already-read
lines of the file, with 1-based line numbers; `Except` carries the
`ValueError` that aborts the load.  (Opening the file, the
`FileNotFoundError` path and the outer wrapper that re-raises with an
`Error loading hex file <name>:` prefix are I/O-level and outside this
model; the wrapper preserves the inner message verbatim.) -/
def loadHexAux : Nat → List Line → Except String (List (List Bool))
  | _, [] => .ok []
  | line_num, line :: rest =>
    let line1 := stripChars line
    if line1 = [] then loadHexAux (line_num + 1) rest
    else
      let line2 :=
        if line1.contains '#' then stripChars (line1.takeWhile fun c => c ≠ '#')
        else line1
      let line3 : Line :=
        match line2 with
        | '0' :: 'x' :: r => r
        | '0' :: 'X' :: r => r
        | other => other
      if line3.length ≠ 8 then
        .error ("Line " ++ toString line_num ++ ": Expected 8 hex digits, got "
          ++ toString line3.length ++ ": " ++ String.mk line3)
      else
        match from_hex_chars ('0' :: 'x' :: line3) 32 with
        | .ok instruction =>
          (loadHexAux (line_num + 1) rest).map fun instrs => instruction :: instrs
        | .error e =>
          .error ("Line " ++ toString line_num ++ ": Invalid hex: "
            ++ String.mk line3 ++ " - " ++ e)

/-- `hex_loader.load_hex_file`, starting `enumerate(f, 1)` at line 1. -/
def load_hex_lines (lines : List Line) : Except String (List (List Bool)) :=
  loadHexAux 1 lines

/- ------------------------------------------------------------------ -/
/- Arithmetic facts about the bit-vector primitives                   -/
/- ------------------------------------------------------------------ -/

theorem bits_to_nat_cons (b : Bool) (bs : List Bool) :
    bits_to_nat (b :: bs) = (if b then 2 ^ bs.length else 0) + bits_to_nat bs := by
  cases b <;> simp [bits_to_nat]

theorem bits_to_nat_lt (l : List Bool) : bits_to_nat l < 2 ^ l.length := by
  induction l with
  | nil => simp [bits_to_nat]
  | cons b bs ih =>
    rw [bits_to_nat_cons]
    cases b <;> simp [pow_succ] <;> omega

theorem bits_to_nat_replicate_false (n : Nat) :
    bits_to_nat (List.replicate n false) = 0 := by
  induction n with
  | zero => rfl
  | succ m ih => simpa [List.replicate_succ, bits_to_nat_cons] using ih

theorem add_one_lsb_length (l : List Bool) :
    (add_one_lsb l).1.length = l.length := by
  induction l with
  | nil => rfl
  | cons b bs ih =>
    rcases h : add_one_lsb bs with ⟨rest, c⟩
    simp [add_one_lsb, h]
    simpa [h] using ih

theorem add_one_lsb_spec (l : List Bool) :
    bits_to_nat (add_one_lsb l).1 + 2 ^ l.length * ((add_one_lsb l).2.toNat)
      = bits_to_nat l + 1 := by
  induction l with
  | nil => rfl
  | cons b bs ih =>
    rcases h : add_one_lsb bs with ⟨rest, c⟩
    have hlen : rest.length = bs.length := by
      have := add_one_lsb_length bs
      rw [h] at this
      exact this
    rw [h] at ih
    simp only [add_one_lsb, h]
    rw [bits_to_nat_cons, bits_to_nat_cons, hlen]
    cases b <;> cases c <;> simp_all [pow_succ] <;> omega

theorem bits_to_nat_map_not (l : List Bool) :
    bits_to_nat (l.map fun b => !b) + bits_to_nat l + 1 = 2 ^ l.length := by
  induction l with
  | nil => rfl
  | cons b bs ih =>
    simp only [List.map_cons]
    rw [bits_to_nat_cons, bits_to_nat_cons]
    simp only [List.length_map, List.length_cons]
    cases b <;> simp [pow_succ] <;> omega

theorem twos_complement_negate_length (l : List Bool) :
    (twos_complement_negate l).length = l.length := by
  unfold twos_complement_negate
  rw [add_one_lsb_length, List.length_map]

theorem twos_complement_negate_spec (l : List Bool) (h : bits_to_nat l ≠ 0) :
    bits_to_nat (twos_complement_negate l) = 2 ^ l.length - bits_to_nat l := by
  unfold twos_complement_negate
  have hs := add_one_lsb_spec (l.map fun b => !b)
  have hm := bits_to_nat_map_not l
  have hlt := bits_to_nat_lt (add_one_lsb (l.map fun b => !b)).1
  rw [add_one_lsb_length] at hlt
  simp only [List.length_map] at hs hlt
  rcases hc : (add_one_lsb (l.map fun b => !b)).2 with _ | _ <;>
    rw [hc] at hs <;> simp at hs <;> omega

theorem twos_complement_negate_zero (l : List Bool) (h : bits_to_nat l = 0) :
    bits_to_nat (twos_complement_negate l) = 0 := by
  unfold twos_complement_negate
  have hs := add_one_lsb_spec (l.map fun b => !b)
  have hm := bits_to_nat_map_not l
  have hlt := bits_to_nat_lt (add_one_lsb (l.map fun b => !b)).1
  rw [add_one_lsb_length] at hlt
  simp only [List.length_map] at hs hlt
  rcases hc : (add_one_lsb (l.map fun b => !b)).2 with _ | _ <;>
    rw [hc] at hs <;> simp at hs <;> omega

/-- The signed value of a non-empty vector is its unsigned value, less
`2 ^ length` when the leading bit is set. -/
theorem bits_to_int_eq (l : List Bool) (hne : l ≠ []) :
    bits_to_int l = (bits_to_nat l : Int) -
      (if l.headD false then (2 : Int) ^ l.length else 0) := by
  rcases l with _ | ⟨b, bs⟩
  · exact absurd rfl hne
  rcases b with _ | _
  · simp [bits_to_int]
  · have h2 : 0 < 2 ^ bs.length := Nat.two_pow_pos _
    have hpos : bits_to_nat (true :: bs) ≠ 0 := by
      rw [bits_to_nat_cons]
      simp only [if_pos]
      omega
    have hneg := twos_complement_negate_spec (true :: bs) hpos
    have hle : bits_to_nat (true :: bs) ≤ 2 ^ (true :: bs).length :=
      (bits_to_nat_lt (true :: bs)).le
    simp only [bits_to_int, if_pos, List.headD_cons]
    rw [hneg, Nat.cast_sub hle]
    push_cast
    ring

/-- Signed 32-bit values lie in `[-2^31, 2^31)`. -/
theorem bits_to_int_bounds32 (l : List Bool) (hl : l.length = 32) :
    -(2 : Int) ^ 31 ≤ bits_to_int l ∧ bits_to_int l < 2 ^ 31 := by
  rcases l with _ | ⟨b, bs⟩
  · simp at hl
  have hlen : bs.length = 31 := by simpa using hl
  have heq := bits_to_int_eq (b :: bs) (by simp)
  have hlt : bits_to_nat (b :: bs) < 2 ^ 32 := by
    have := bits_to_nat_lt (b :: bs)
    rwa [hl] at this
  have hcons := bits_to_nat_cons b bs
  rw [hlen] at hcons
  have hbs : bits_to_nat bs < 2 ^ 31 := by
    have := bits_to_nat_lt bs
    rwa [hlen] at this
  rw [hl] at heq
  rcases b with _ | _ <;> simp only [List.headD_cons] at heq <;>
    rw [heq, hcons] <;> norm_num at * <;> omega

/-- The leading bit of a 32-bit vector is set exactly when the unsigned
value reaches `2^31`. -/
theorem headD_true_iff (l : List Bool) (hl : l.length = 32) :
    l.headD false = true ↔ 2 ^ 31 ≤ bits_to_nat l := by
  rcases l with _ | ⟨b, bs⟩
  · simp at hl
  have hlen : bs.length = 31 := by simpa using hl
  have hcons := bits_to_nat_cons b bs
  rw [hlen] at hcons
  have hbs : bits_to_nat bs < 2 ^ 31 := by
    have := bits_to_nat_lt bs
    rwa [hlen] at this
  rcases b with _ | _ <;> simp only [List.headD_cons, hcons] <;> simp <;> omega

theorem fullAdderAdd_spec (a b c : Bool) :
    (fullAdderAdd a b c).1.toNat + 2 * (fullAdderAdd a b c).2.toNat
      = a.toNat + b.toNat + c.toNat := by
  cases a <;> cases b <;> cases c <;> rfl

theorem rippleAddBits_length : ∀ (a b : List Bool), a.length = b.length →
    ∀ c, (rippleAddBits a b c).1.length = a.length
  | [], [], _, _ => rfl
  | x :: xs, y :: ys, h, c => by
    have hh : xs.length = ys.length := by simpa using h
    have ih := rippleAddBits_length xs ys hh c
    rcases hr : rippleAddBits xs ys c with ⟨rest, cout⟩
    rcases hf : fullAdderAdd x y cout with ⟨s, co⟩
    rw [hr] at ih
    simp [rippleAddBits, hr, hf]
    simpa using ih

/-- The ripple-carry chain computes binary addition: the sum bits together
with the final carry represent `uint a + uint b + carry_in`. -/
theorem rippleAddBits_spec : ∀ (a b : List Bool), a.length = b.length →
    ∀ c, bits_to_nat (rippleAddBits a b c).1 +
      2 ^ a.length * ((rippleAddBits a b c).2.toNat)
      = bits_to_nat a + bits_to_nat b + c.toNat
  | [], [], _, c => by simp [rippleAddBits, bits_to_nat]
  | x :: xs, y :: ys, h, c => by
    have hh : xs.length = ys.length := by simpa using h
    have ih := rippleAddBits_spec xs ys hh c
    have ihlen := rippleAddBits_length xs ys hh c
    rcases hr : rippleAddBits xs ys c with ⟨rest, cout⟩
    rcases hf : fullAdderAdd x y cout with ⟨s, co⟩
    have hfa := fullAdderAdd_spec x y cout
    rw [hf] at hfa
    rw [hr] at ih ihlen
    simp only at ih ihlen
    simp only [rippleAddBits, hr, hf]
    rw [bits_to_nat_cons, bits_to_nat_cons, bits_to_nat_cons, ihlen]
    simp only [List.length_cons, pow_succ]
    cases x <;> cases y <;> cases s <;> cases co <;> cases cout <;>
      simp_all <;> omega

theorem bool_toNat_le_one (b : Bool) : b.toNat ≤ 1 := by cases b <;> simp

/-- Claim C3 (failing behavior): the claim says `ALU.add` on any valid
32-bit pair with an in-range signed sum "returns normally a result ...
with flag V = 0".  In the source `ALU.add` NEVER returns normally: after
the width checks and the ripple addition it evaluates
`self._generate_flags(...)`, and `_generate_flags` is a module-level
function (dedented out of `class ALU`), so the attribute lookup raises
AttributeError on every call. -/
theorem claim_C3_alu_add_raises (a b : List Bool) (ha : a.length = 32)
    (hb : b.length = 32) : alu32.add a b = none := by
  simp [alu32, adder32, ALU.add, RippleCarryAdder.add, ha, hb]

/-- Claim C7 (amended): the carry of `RippleCarryAdder.subtract` is 1
exactly on "no borrow" (`unsigned(a) ≥ unsigned(b)`, the carry-out of
`a + ¬b + 1`) whenever `b` is nonzero; but for `b = 0` it is 0, because the
carry produced while forming `¬b + 1` is dropped before the addition. -/
theorem claim_C7_subtract_carry (a b : List Bool) (ha : a.length = 32)
    (hb : b.length = 32) :
    ∃ r, adder32.subtract a b = some r ∧
      (bits_to_nat b ≠ 0 → r.2 = decide (bits_to_nat b ≤ bits_to_nat a)) ∧
      (bits_to_nat b = 0 → r.2 = false) := by
  have hbn : (add_one_lsb (b.map fun bit => !bit)).1 = twos_complement_negate b :=
    rfl
  have hblen : (twos_complement_negate b).length = 32 := by
    rw [twos_complement_negate_length, hb]
  rcases hr : rippleAddBits a (twos_complement_negate b) false with ⟨sum, carry⟩
  have hspec := rippleAddBits_spec a (twos_complement_negate b)
    (ha.trans hblen.symm) false
  rw [hr, ha] at hspec
  simp only [Bool.toNat_false, Nat.add_zero] at hspec
  have hsub : adder32.subtract a b = some (sum, carry) := by
    simp [adder32, RippleCarryAdder.subtract, RippleCarryAdder.add, hbn,
      ha, hblen, hr]
  have hslen := rippleAddBits_length a (twos_complement_negate b)
    (ha.trans hblen.symm) false
  rw [hr] at hslen
  simp only at hslen
  rw [ha] at hslen
  have hns : bits_to_nat sum < 2 ^ 32 := by
    have := bits_to_nat_lt sum
    rwa [hslen] at this
  have hnb : bits_to_nat b < 2 ^ 32 := by
    have := bits_to_nat_lt b
    rwa [hb] at this
  have hna : bits_to_nat a < 2 ^ 32 := by
    have := bits_to_nat_lt a
    rwa [ha] at this
  refine ⟨(sum, carry), hsub, ?_, ?_⟩
  · intro hbz
    have hneg := twos_complement_negate_spec b hbz
    rw [hb] at hneg
    rw [hneg] at hspec
    have hc := bool_toNat_le_one carry
    rcases hcv : carry with _ | _ <;> rw [hcv] at hspec <;>
      simp only [Bool.toNat_false, Bool.toNat_true] at hspec <;>
      by_cases hab : bits_to_nat b ≤ bits_to_nat a <;>
      simp only [hab, decide_eq_true_eq] <;> simp [hab] <;> omega
  · intro hbz
    have hneg := twos_complement_negate_zero b hbz
    rw [hneg] at hspec
    rcases hcv : carry with _ | _
    · rfl
    · rw [hcv] at hspec
      simp only [Bool.toNat_true] at hspec
      omega

theorem bits_to_nat_append (l1 l2 : List Bool) :
    bits_to_nat (l1 ++ l2) = bits_to_nat l1 * 2 ^ l2.length + bits_to_nat l2 := by
  induction l1 with
  | nil => simp [bits_to_nat]
  | cons b bs ih =>
    simp only [List.cons_append, bits_to_nat_cons, List.length_append, ih]
    cases b <;> simp [pow_add] <;> ring

theorem bits_to_nat_replicate_prefix (k : Nat) (l : List Bool) :
    bits_to_nat (List.replicate k false ++ l) = bits_to_nat l := by
  rw [bits_to_nat_append, bits_to_nat_replicate_false]
  simp

/-- The LSB-first digit list of `int_to_bits`'s loop reads back (reversed,
i.e. MSB first) to the value it encodes. -/
theorem nat_to_bits_le_val (v : Nat) :
    bits_to_nat (nat_to_bits_le v).reverse = v := by
  induction v using Nat.strong_induction_on with
  | _ v ih =>
    rw [nat_to_bits_le]
    by_cases h : v = 0
    · simp [h, bits_to_nat]
    · have hlt : v / 2 < v := Nat.div_lt_self (Nat.pos_of_ne_zero h) (by decide)
      have ihv := ih (v / 2) hlt
      simp only [h, dite_false]
      rw [List.reverse_cons, bits_to_nat_append, ihv]
      have hmod : v % 2 = 0 ∨ v % 2 = 1 := by omega
      rcases hmod with hm | hm <;> simp [hm, bits_to_nat] <;> omega

theorem nat_to_bits_le_length : ∀ (w v : Nat), v < 2 ^ w →
    (nat_to_bits_le v).length ≤ w := by
  intro w
  induction w with
  | zero =>
    intro v hv
    have : v = 0 := by simpa using hv
    rw [this, nat_to_bits_le]
    simp
  | succ n ih =>
    intro v hv
    rw [nat_to_bits_le]
    by_cases h : v = 0
    · simp [h]
    · have : v / 2 < 2 ^ n := by
        rw [pow_succ] at hv
        omega
      have := ih (v / 2) this
      simp only [h, dite_false, List.length_cons]
      omega

/-- Encoding a value in `[0, 2^w)` gives a `w`-bit vector with that
unsigned value. -/
theorem int_to_bits_nonneg_spec (v : Nat) (w : Nat) (hv : v < 2 ^ w) :
    (int_to_bits (v : Int) w).length = w ∧
      bits_to_nat (int_to_bits (v : Int) w) = v := by
  by_cases h0 : v = 0
  · subst h0
    have he : int_to_bits ((0 : Nat) : Int) w = List.replicate w false := by
      norm_num [int_to_bits]
    rw [he]
    exact ⟨List.length_replicate _ _, bits_to_nat_replicate_false w⟩
  · have hneg : ¬ ((v : Int) < 0) := by omega
    have hz : ¬ ((v : Int) = 0) := by exact_mod_cast h0
    have hlen := nat_to_bits_le_length w v hv
    have hval := nat_to_bits_le_val v
    simp only [int_to_bits, hneg, hz, if_false]
    have htn : (v : Int).toNat = v := Int.toNat_natCast v
    rw [htn]
    have hplen : (nat_to_bits_le v ++
        List.replicate (w - (nat_to_bits_le v).length) false).length = w := by
      simp only [List.length_append, List.length_replicate]
      omega
    have hrevlen : (nat_to_bits_le v ++
        List.replicate (w - (nat_to_bits_le v).length) false).reverse.length = w := by
      rw [List.length_reverse]
      exact hplen
    rw [List.take_of_length_le (le_of_eq hrevlen)]
    constructor
    · exact hrevlen
    · rw [List.reverse_append, List.reverse_replicate,
        bits_to_nat_replicate_prefix, hval]

/-- Encoding a negative value `v` with `-2^w < v < 0` gives a `w`-bit vector
with unsigned value `v + 2^w`. -/
theorem int_to_bits_neg_spec (v : Int) (w : Nat) (hv1 : -(2 : Int) ^ w < v)
    (hv2 : v < 0) :
    (int_to_bits v w).length = w ∧
      ((bits_to_nat (int_to_bits v w)) : Int) = v + 2 ^ w := by
  have hcast : ((2 ^ w : Nat) : Int) = (2 : Int) ^ w := by push_cast; ring
  have hn0 : 0 < (-v).toNat := by omega
  have hnw : (-v).toNat < 2 ^ w := by omega
  have hnn := int_to_bits_nonneg_spec (-v).toNat w hnw
  have henc : int_to_bits ((-v).toNat : Int) w =
      (nat_to_bits_le (-v).toNat ++
        List.replicate (w - (nat_to_bits_le (-v).toNat).length) false).reverse.take w := by
    have hneg : ¬ (((-v).toNat : Int) < 0) := by omega
    have hz : ¬ (((-v).toNat : Int) = 0) := by
      simp only [Nat.cast_eq_zero]
      omega
    simp only [int_to_bits, hneg, hz, if_false, Int.toNat_natCast]
  have hself : int_to_bits v w = twos_complement_negate
      ((nat_to_bits_le (-v).toNat ++
        List.replicate (w - (nat_to_bits_le (-v).toNat).length) false).reverse.take w) := by
    simp only [int_to_bits, hv2, if_pos]
  rw [henc] at hnn
  rw [hself]
  have hvalne : bits_to_nat ((nat_to_bits_le (-v).toNat ++
      List.replicate (w - (nat_to_bits_le (-v).toNat).length) false).reverse.take w) ≠ 0 := by
    rw [hnn.2]
    omega
  have := twos_complement_negate_spec _ hvalne
  rw [hnn.1, hnn.2] at this
  constructor
  · rw [twos_complement_negate_length, hnn.1]
  · rw [this]
    have hle : (-v).toNat ≤ 2 ^ w := le_of_lt hnw
    rw [Nat.cast_sub hle]
    push_cast
    omega

/-- Signed round trip: encoding any value of `[-2^31, 2^31)` as 32 bits and
reading it back signed is the identity. -/
theorem int_to_bits_signed_roundtrip (v : Int) (hv1 : -(2 : Int) ^ 31 ≤ v)
    (hv2 : v < 2 ^ 31) :
    (int_to_bits v 32).length = 32 ∧ bits_to_int (int_to_bits v 32) = v := by
  by_cases hneg : v < 0
  · have h1 : -(2 : Int) ^ 32 < v := by
      have : (2 : Int) ^ 31 < 2 ^ 32 := by norm_num
      omega
    obtain ⟨hlen, hval⟩ := int_to_bits_neg_spec v 32 h1 hneg
    have hne : int_to_bits v 32 ≠ [] := by
      intro h
      rw [h] at hlen
      simp at hlen
    have hge : 2 ^ 31 ≤ bits_to_nat (int_to_bits v 32) := by
      have h31 : (2 : Int) ^ 31 ≤ (bits_to_nat (int_to_bits v 32) : Int) := by
        rw [hval]
        have : (2 : Int) ^ 32 = 2 ^ 31 + 2 ^ 31 := by norm_num
        omega
      exact_mod_cast h31
    have hmsb : (int_to_bits v 32).headD false = true :=
      (headD_true_iff _ hlen).mpr hge
    refine ⟨hlen, ?_⟩
    rw [bits_to_int_eq _ hne, hmsb, if_pos rfl, hlen, hval]
    ring
  · push_neg at hneg
    have hlt : v.toNat < 2 ^ 32 := by
      have h32 : (2 : Int) ^ 31 < 2 ^ 32 := by norm_num
      omega
    obtain ⟨hlen, hval⟩ := int_to_bits_nonneg_spec v.toNat 32 hlt
    rw [Int.toNat_of_nonneg hneg] at hlen hval
    have hne : int_to_bits v 32 ≠ [] := by
      intro h
      rw [h] at hlen
      simp at hlen
    have hsmall : bits_to_nat (int_to_bits v 32) < 2 ^ 31 := by
      have : (bits_to_nat (int_to_bits v 32) : Int) < 2 ^ 31 := by
        rw [hval]
        omega
      exact_mod_cast this
    have hmsb : (int_to_bits v 32).headD false = false := by
      rcases hh : (int_to_bits v 32).headD false with _ | _
      · rfl
      · have := (headD_true_iff _ hlen).mp hh
        omega
    refine ⟨hlen, ?_⟩
    rw [bits_to_int_eq _ hne, hmsb]
    simp only [Bool.false_eq_true, if_false, sub_zero]
    rw [hval]
    omega

/-- Claim C5 (amended): `MultiplyDivideUnit.mulhu` computes the same value
as `mulh`: in rd the upper 32 bits of the 64-bit two's-complement pattern
of the signed product `signed(a) * signed(b)`, not of the unsigned
product. -/
theorem claim_C5_mulhu_signed_high (a b : List Bool) (ha : a.length = 32)
    (hb : b.length = 32) :
    mdu32.mulhu a b = mdu32.mulh a b ∧
    ∃ res, mdu32.mulhu a b = some res ∧
      (bits_to_nat res.rd : Int) =
        (bits_to_int a * bits_to_int b) % 2 ^ 64 / 2 ^ 32 := by
  refine ⟨rfl, ?_⟩
  obtain ⟨hba1, hba2⟩ := bits_to_int_bounds32 a ha
  obtain ⟨hbb1, hbb2⟩ := bits_to_int_bounds32 b hb
  have hguard : ¬ (a.length ≠ 32 ∨ b.length ≠ 32) := by
    push_neg
    exact ⟨ha, hb⟩
  set p := bits_to_int a * bits_to_int b with hp
  have hpbound : -(2 : Int) ^ 62 ≤ p ∧ p ≤ 2 ^ 62 := by
    constructor <;> nlinarith
  have hp64 : (if p < 0 then p + 2 ^ 64 else p) = p % 2 ^ 64 := by
    by_cases hneg : p < 0
    · rw [if_pos hneg]
      have h2 : (p + 2 ^ 64) % 2 ^ 64 = p + 2 ^ 64 :=
        Int.emod_eq_of_lt (by omega) (by omega)
      have h1 : (p + 2 ^ 64) % 2 ^ 64 = p % 2 ^ 64 := by
        simpa using Int.add_mul_emod_self_left p (2 ^ 64) 1
      omega
    · rw [if_neg hneg]
      exact (Int.emod_eq_of_lt (by omega) (by omega)).symm
  set p64 := if p < 0 then p + 2 ^ 64 else p with hp64def
  have hp64nonneg : 0 ≤ p64 := by
    rw [hp64def]
    split <;> omega
  have hp64lt : p64 < 2 ^ 64 := by
    rw [hp64def]
    split <;> omega
  have hdivnn : 0 ≤ p64 / 2 ^ 32 := Int.ediv_nonneg hp64nonneg (by norm_num)
  have hdivlt : p64 / 2 ^ 32 < 2 ^ 32 := by
    rw [Int.ediv_lt_iff_lt_mul (by norm_num)]
    omega
  have hhigh : p64 / 2 ^ 32 % 2 ^ 32 = p64 / 2 ^ 32 :=
    Int.emod_eq_of_lt hdivnn hdivlt
  have henc := int_to_bits_nonneg_spec (p64 / 2 ^ 32).toNat 32 (by
    have hcast : ((2 ^ 32 : Nat) : Int) = (2 : Int) ^ 32 := by norm_cast
    omega)
  rw [Int.toNat_of_nonneg hdivnn] at henc
  rcases hm : mdu32.mulhu a b with _ | res
  · exfalso
    simp [MultiplyDivideUnit.mulhu, mdu32, BoothMultiplier.multiply,
      hguard] at hm
  · refine ⟨res, rfl, ?_⟩
    simp only [MultiplyDivideUnit.mulhu, mdu32, BoothMultiplier.multiply,
      hguard, if_false, Option.map] at hm
    rw [← hp, ← hp64def] at hm
    have hrd : res.rd = int_to_bits (p64 / 2 ^ 32 % 2 ^ 32) 32 := by
      rw [Option.some_inj] at hm
      rw [← hm]
    rw [hrd, hhigh, henc.2, Int.toNat_of_nonneg hdivnn, ← hp64]

theorem int_neg_tmod (a b : Int) : (-a).tmod b = -(a.tmod b) := by
  have h1 := Int.tdiv_add_tmod a b
  have h2 := Int.tdiv_add_tmod (-a) b
  rw [Int.neg_tdiv] at h2
  linarith

/-- The four sign branches of the divider's signed path compute exactly
truncation-toward-zero division with the dividend-signed remainder. -/
theorem signed_qr_eq (A B : Int) (hB : B ≠ 0) :
    (if 0 ≤ A ∧ 0 ≤ B then (A / B, A % B)
     else if 0 ≤ A then (-(A / (-B)), A % (-B))
     else if 0 ≤ B then (-((-A) / B), -((-A) % B))
     else ((-A) / (-B), -((-A) % (-B)))) = (A.tdiv B, A.tmod B) := by
  by_cases hA : 0 ≤ A <;> by_cases hBp : 0 ≤ B
  · rw [if_pos ⟨hA, hBp⟩, Int.tdiv_eq_ediv hA hBp, Int.tmod_eq_emod hA hBp]
  · have hBneg : 0 ≤ -B := by omega
    rw [if_neg (by tauto), if_pos hA]
    have hd : A.tdiv B = -(A / (-B)) := by
      conv_lhs => rw [show B = -(-B) by ring]
      rw [Int.tdiv_neg, Int.tdiv_eq_ediv hA hBneg]
    have hm : A.tmod B = A % (-B) := by
      conv_lhs => rw [show B = -(-B) by ring]
      rw [Int.tmod_neg, Int.tmod_eq_emod hA hBneg]
    rw [hd, hm]
  · have hAneg : 0 ≤ -A := by omega
    rw [if_neg (by tauto), if_neg hA, if_pos hBp]
    have hd : A.tdiv B = -((-A) / B) := by
      conv_lhs => rw [show A = -(-A) by ring]
      rw [Int.neg_tdiv, Int.tdiv_eq_ediv hAneg hBp]
    have hm : A.tmod B = -((-A) % B) := by
      conv_lhs => rw [show A = -(-A) by ring]
      rw [int_neg_tmod, Int.tmod_eq_emod hAneg hBp]
    rw [hd, hm]
  · have hAneg : 0 ≤ -A := by omega
    have hBneg : 0 ≤ -B := by omega
    rw [if_neg (by tauto), if_neg hA, if_neg hBp]
    have hd : A.tdiv B = (-A) / (-B) := by
      conv_lhs => rw [show A = -(-A) by ring, show B = -(-B) by ring]
      rw [Int.neg_tdiv, Int.tdiv_neg, Int.tdiv_eq_ediv hAneg hBneg]
      ring
    have hm : A.tmod B = -((-A) % (-B)) := by
      conv_lhs => rw [show A = -(-A) by ring, show B = -(-B) by ring]
      rw [int_neg_tmod, Int.tmod_neg, Int.tmod_eq_emod hAneg hBneg]
    rw [hd, hm]

/-- Truncating division of in-range 32-bit values stays in range, outside
the INT_MIN / -1 case. -/
theorem tdiv_tmod_range (A B : Int) (hA1 : -(2 : Int) ^ 31 ≤ A)
    (hA2 : A < 2 ^ 31) (hB1 : -(2 : Int) ^ 31 ≤ B) (hB2 : B < 2 ^ 31)
    (hB : B ≠ 0) (hexc : ¬ (A = -(2 : Int) ^ 31 ∧ B = -1)) :
    (-(2 : Int) ^ 31 ≤ A.tdiv B ∧ A.tdiv B < 2 ^ 31) ∧
      (-(2 : Int) ^ 31 ≤ A.tmod B ∧ A.tmod B < 2 ^ 31) := by
  have hqr := signed_qr_eq A B hB
  by_cases hA : 0 ≤ A <;> by_cases hBp : 0 ≤ B
  · rw [if_pos ⟨hA, hBp⟩, Prod.mk.injEq] at hqr
    have hBpos : 0 < B := by omega
    have hed := Int.ediv_add_emod A B
    have hr0 := Int.emod_nonneg A hB
    have hrb := Int.emod_lt_of_pos A hBpos
    have hq0 : 0 ≤ A / B := Int.ediv_nonneg hA (le_of_lt hBpos)
    have hqle : A / B ≤ A := Int.ediv_le_self B hA
    rw [← hqr.1, ← hqr.2]
    omega
  · have hBpos : 0 < -B := by omega
    rw [if_neg (by tauto), if_pos hA, Prod.mk.injEq] at hqr
    have hed := Int.ediv_add_emod A (-B)
    have hr0 : 0 ≤ A % (-B) := Int.emod_nonneg A (by omega)
    have hrb := Int.emod_lt_of_pos A hBpos
    have hq0 : 0 ≤ A / (-B) := Int.ediv_nonneg hA (le_of_lt hBpos)
    have hqle : A / (-B) ≤ A := Int.ediv_le_self (-B) hA
    rw [← hqr.1, ← hqr.2]
    omega
  · have hBpos : 0 < B := by omega
    have hAneg : 0 ≤ -A := by omega
    rw [if_neg (by tauto), if_neg hA, if_pos hBp, Prod.mk.injEq] at hqr
    have hed := Int.ediv_add_emod (-A) B
    have hr0 : 0 ≤ (-A) % B := Int.emod_nonneg (-A) hB
    have hrb := Int.emod_lt_of_pos (-A) hBpos
    have hq0 : 0 ≤ (-A) / B := Int.ediv_nonneg hAneg (le_of_lt hBpos)
    have hqle : (-A) / B ≤ -A := Int.ediv_le_self B hAneg
    rw [← hqr.1, ← hqr.2]
    omega
  · have hBpos : 0 < -B := by omega
    have hAneg : 0 ≤ -A := by omega
    rw [if_neg (by tauto), if_neg hA, if_neg hBp, Prod.mk.injEq] at hqr
    have hed := Int.ediv_add_emod (-A) (-B)
    have hr0 : 0 ≤ (-A) % (-B) := Int.emod_nonneg (-A) (by omega)
    have hrb := Int.emod_lt_of_pos (-A) hBpos
    have hq0 : 0 ≤ (-A) / (-B) := Int.ediv_nonneg hAneg (le_of_lt hBpos)
    have hqle : (-A) / (-B) ≤ -A := Int.ediv_le_self (-B) hAneg
    rw [← hqr.1, ← hqr.2]
    refine ⟨⟨by omega, ?_⟩, by omega, by omega⟩
    by_cases hB1' : B = -1
    · have hAne : A ≠ -(2 : Int) ^ 31 := fun h => hexc ⟨h, hB1'⟩
      rw [hB1']
      simp only [neg_neg]
      rw [Int.ediv_one]
      omega
    · have hB2' : 2 ≤ -B := by omega
      have hmul : (-B) * ((-A) / (-B)) ≤ -A := by omega
      nlinarith

/-- Folding a negative signed value into `[0, 2^32)`, as the divider's
unsigned path does, recovers the unsigned reading of the vector. -/
theorem bits_to_int_unsigned_fold (l : List Bool) (hl : l.length = 32) :
    (if bits_to_int l < 0 then bits_to_int l + 2 ^ 32 else bits_to_int l)
      = (bits_to_nat l : Int) := by
  have hne : l ≠ [] := by
    intro h
    rw [h] at hl
    simp at hl
  have heq := bits_to_int_eq l hne
  rw [hl] at heq
  have hlt : bits_to_nat l < 2 ^ 32 := by
    have := bits_to_nat_lt l
    rwa [hl] at this
  rcases hh : l.headD false with _ | _ <;> rw [hh] at heq <;>
    simp only [Bool.false_eq_true, if_false, if_true, sub_zero] at heq <;>
    rw [heq] <;> split <;> omega

theorem bits_to_int_ne_zero_iff (l : List Bool) (hl : l.length = 32) :
    bits_to_int l ≠ 0 ↔ bits_to_nat l ≠ 0 := by
  have hne : l ≠ [] := by
    intro h
    rw [h] at hl
    simp at hl
  have heq := bits_to_int_eq l hne
  rw [hl] at heq
  have hlt : bits_to_nat l < 2 ^ 32 := by
    have := bits_to_nat_lt l
    rwa [hl] at this
  have hiff := headD_true_iff l hl
  rcases hh : l.headD false with _ | _ <;> rw [hh] at heq hiff <;>
    simp only [Bool.false_eq_true, if_false, if_true, sub_zero,
      false_iff, true_iff, not_le] at heq hiff <;> rw [heq] <;>
    constructor <;> intro h <;> omega

/-- Round trip through the divider's unsigned result adjustment: a value of
`[0, 2^32)` folded into the signed range and re-encoded keeps its unsigned
reading. -/
theorem fold_roundtrip (q : Int) (h0 : 0 ≤ q) (h1 : q < 2 ^ 32) :
    (int_to_bits (if 2 ^ 31 ≤ q then q - 2 ^ 32 else q) 32).length = 32 ∧
    ((bits_to_nat (int_to_bits (if 2 ^ 31 ≤ q then q - 2 ^ 32 else q) 32)) : Int)
      = q := by
  by_cases h : 2 ^ 31 ≤ q
  · rw [if_pos h]
    by_cases hz : q = 2 ^ 32
    · omega
    · have := int_to_bits_neg_spec (q - 2 ^ 32) 32 (by omega) (by omega)
      exact ⟨this.1, by rw [this.2]; ring⟩
  · rw [if_neg h]
    have := int_to_bits_nonneg_spec q.toNat 32 (by omega)
    rw [Int.toNat_of_nonneg h0] at this
    exact ⟨this.1, by rw [this.2, Int.toNat_of_nonneg h0]⟩


/-- Claim C6: for a nonzero divisor, outside the signed INT_MIN / -1 case,
`RestoringDivider.divide` returns the quotient truncated toward zero and a
remainder carrying the dividend's sign, satisfying the division identity
`dividend = quotient * divisor + remainder` in the signed (signed = true)
or unsigned (signed = false) interpretation, with overflow 0.
(`Int.tdiv` and `Int.tmod` are exactly truncation toward zero with the
remainder taking the dividend's sign.) -/
theorem claim_C6_division_identity (a b : List Bool) (signed : Bool)
    (ha : a.length = 32) (hb : b.length = 32)
    (hbz : bits_to_int b ≠ 0)
    (hexc : ¬ (signed = true ∧ bits_to_int a = -(2 : Int) ^ 31 ∧
      bits_to_int b = -1)) :
    ∃ res, mdu32.divider.divide a b signed = some res ∧ res.overflow = 0 ∧
      (signed = true →
        bits_to_int res.quotient = (bits_to_int a).tdiv (bits_to_int b) ∧
        bits_to_int res.remainder = (bits_to_int a).tmod (bits_to_int b) ∧
        bits_to_int a = bits_to_int res.quotient * bits_to_int b +
          bits_to_int res.remainder) ∧
      (signed = false →
        bits_to_nat res.quotient = bits_to_nat a / bits_to_nat b ∧
        bits_to_nat res.remainder = bits_to_nat a % bits_to_nat b ∧
        bits_to_nat a = bits_to_nat res.quotient * bits_to_nat b +
          bits_to_nat res.remainder) := by
  obtain ⟨hA1, hA2⟩ := bits_to_int_bounds32 a ha
  obtain ⟨hB1, hB2⟩ := bits_to_int_bounds32 b hb
  have hguard : ¬ (a.length ≠ 32 ∨ b.length ≠ 32) := by
    push_neg
    exact ⟨ha, hb⟩
  cases signed with
  | true =>
    have hexc2 : ¬ (bits_to_int a = -(2 : Int) ^ 31 ∧ bits_to_int b = -1) := by
      intro h
      exact hexc ⟨rfl, h.1, h.2⟩
    have hqr := signed_qr_eq (bits_to_int a) (bits_to_int b) hbz
    obtain ⟨⟨hq1, hq2⟩, hr1, hr2⟩ := tdiv_tmod_range (bits_to_int a)
      (bits_to_int b) hA1 hA2 hB1 hB2 hbz hexc2
    obtain ⟨hqlen, hqval⟩ := int_to_bits_signed_roundtrip _ hq1 hq2
    obtain ⟨hrlen, hrval⟩ := int_to_bits_signed_roundtrip _ hr1 hr2
    have hdiv : mdu32.divider.divide a b true = some
        { quotient := int_to_bits ((bits_to_int a).tdiv (bits_to_int b)) 32
          remainder := int_to_bits ((bits_to_int a).tmod (bits_to_int b)) 32
          overflow := 0 } := by
      simp only [RestoringDivider.divide, mdu32, hguard, if_false, hbz]
      simp only [true_and, if_true, show (32 : Nat) - 1 = 31 from rfl]
      rw [if_neg hexc2, hqr]
    refine ⟨_, hdiv, rfl, fun _ => ⟨hqval, hrval, ?_⟩, fun h => Bool.noConfusion h⟩
    have hid := Int.tdiv_add_tmod (bits_to_int a) (bits_to_int b)
    rw [hqval, hrval]
    linarith
  | false =>
    have hnbz : bits_to_nat b ≠ 0 := (bits_to_int_ne_zero_iff b hb).mp hbz
    have hna32 : bits_to_nat a < 2 ^ 32 := by
      have := bits_to_nat_lt a
      rwa [ha] at this
    have hnb32 : bits_to_nat b < 2 ^ 32 := by
      have := bits_to_nat_lt b
      rwa [hb] at this
    have hq0 : 0 ≤ (bits_to_nat a : Int) / (bits_to_nat b : Int) :=
      Int.ediv_nonneg (by positivity) (by positivity)
    have hq32 : (bits_to_nat a : Int) / (bits_to_nat b : Int) < 2 ^ 32 := by
      have hle : (bits_to_nat a : Int) / (bits_to_nat b : Int) ≤
          (bits_to_nat a : Int) := Int.ediv_le_self _ (by positivity)
      have : (bits_to_nat a : Int) < 2 ^ 32 := by exact_mod_cast hna32
      omega
    have hr0 : 0 ≤ (bits_to_nat a : Int) % (bits_to_nat b : Int) := by
      apply Int.emod_nonneg
      have : 0 < bits_to_nat b := Nat.pos_of_ne_zero hnbz
      positivity
    have hr32 : (bits_to_nat a : Int) % (bits_to_nat b : Int) < 2 ^ 32 := by
      have hpos : (0 : Int) < (bits_to_nat b : Int) := by
        have : 0 < bits_to_nat b := Nat.pos_of_ne_zero hnbz
        exact_mod_cast this
      have hlt : (bits_to_nat a : Int) % (bits_to_nat b : Int) <
          (bits_to_nat b : Int) := Int.emod_lt_of_pos _ hpos
      have : (bits_to_nat b : Int) < 2 ^ 32 := by exact_mod_cast hnb32
      omega
    obtain ⟨hqlen, hqval⟩ := fold_roundtrip _ hq0 hq32
    obtain ⟨hrlen, hrval⟩ := fold_roundtrip _ hr0 hr32
    have hdiv : mdu32.divider.divide a b false = some
        { quotient := int_to_bits
            (if 2 ^ 31 ≤ (bits_to_nat a : Int) / (bits_to_nat b : Int) then
              (bits_to_nat a : Int) / (bits_to_nat b : Int) - 2 ^ 32
            else (bits_to_nat a : Int) / (bits_to_nat b : Int)) 32
          remainder := int_to_bits
            (if 2 ^ 31 ≤ (bits_to_nat a : Int) % (bits_to_nat b : Int) then
              (bits_to_nat a : Int) % (bits_to_nat b : Int) - 2 ^ 32
            else (bits_to_nat a : Int) % (bits_to_nat b : Int)) 32
          overflow := 0 } := by
      simp only [RestoringDivider.divide, mdu32, hguard, if_false, hbz]
      simp only [Bool.false_eq_true, false_and, if_false,
        show (32 : Nat) - 1 = 31 from rfl]
      rw [bits_to_int_unsigned_fold a ha, bits_to_int_unsigned_fold b hb]
    have hqnat : bits_to_nat (int_to_bits
        (if 2 ^ 31 ≤ (bits_to_nat a : Int) / (bits_to_nat b : Int) then
          (bits_to_nat a : Int) / (bits_to_nat b : Int) - 2 ^ 32
        else (bits_to_nat a : Int) / (bits_to_nat b : Int)) 32)
        = bits_to_nat a / bits_to_nat b := by
      have hcast : ((bits_to_nat a / bits_to_nat b : Nat) : Int) =
          (bits_to_nat a : Int) / (bits_to_nat b : Int) :=
        Int.natCast_div _ _
      have h2 := hqval
      rw [← hcast] at h2
      exact_mod_cast h2
    have hrnat : bits_to_nat (int_to_bits
        (if 2 ^ 31 ≤ (bits_to_nat a : Int) % (bits_to_nat b : Int) then
          (bits_to_nat a : Int) % (bits_to_nat b : Int) - 2 ^ 32
        else (bits_to_nat a : Int) % (bits_to_nat b : Int)) 32)
        = bits_to_nat a % bits_to_nat b := by
      have hcast : ((bits_to_nat a % bits_to_nat b : Nat) : Int) =
          (bits_to_nat a : Int) % (bits_to_nat b : Int) :=
        Int.natCast_mod _ _
      have h2 := hrval
      rw [← hcast] at h2
      exact_mod_cast h2
    have hgoal : bits_to_nat a = (bits_to_nat a / bits_to_nat b) *
        bits_to_nat b + bits_to_nat a % bits_to_nat b := by
      conv_rhs => rw [Nat.mul_comm]
      exact (Nat.div_add_mod _ _).symm
    rw [← hqnat, ← hrnat] at hgoal
    exact ⟨_, hdiv, rfl, fun h => Bool.noConfusion h, fun _ => ⟨hqnat, hrnat, hgoal⟩⟩

/- ------------------------------------------------------------------ -/
/- Register-file and CPU invariants                                   -/
/- ------------------------------------------------------------------ -/

/-- A register-file operation of the kind claim C2 quantifies over: a write
to address 0 with arbitrary data and enable, or a clock edge. -/
inductive RFOp where
  | write0 (data : List Bool) (enable : Bool) : RFOp
  | clockEdge : RFOp
deriving DecidableEq, Repr

/-- Apply one operation; a write to address 0 always returns (the source
early-returns before any range check). -/
def applyRFOp (rf : RegisterFile) : RFOp → RegisterFile
  | .write0 data enable => (rf.write 0 data enable).getD rf
  | .clockEdge => rf.clock_edge

/-- Register 0 is in its reset state and exists. -/
def reg0Pristine (rf : RegisterFile) : Prop :=
  rf.registers.head? = some (Reg.init 32) ∧ 0 < rf.num_regs

theorem reg0Pristine_init : reg0Pristine (RegisterFile.init 32 32) := by
  constructor
  · rfl
  · decide

theorem reg0_read_zero (rf : RegisterFile) (h : reg0Pristine rf) :
    rf.read 0 = some (List.replicate 32 false) := by
  obtain ⟨h1, h2⟩ := h
  unfold RegisterFile.read
  rw [if_pos ⟨le_refl 0, by exact_mod_cast h2⟩]
  rw [List.getD_eq_getElem?_getD, Int.toNat_zero, ← List.head?_eq_getElem?, h1]
  rfl

theorem reg0Pristine_write (rf rf1 : RegisterFile) (addr : Int)
    (data : List Bool) (en : Bool) (hw : rf.write addr data en = some rf1)
    (h : reg0Pristine rf) : reg0Pristine rf1 := by
  unfold RegisterFile.write at hw
  split at hw
  · cases hw
    exact h
  · split at hw
    · cases hw
      rename_i haddr hrange
      obtain ⟨h1, h2⟩ := h
      refine ⟨?_, h2⟩
      have hne : addr.toNat ≠ 0 := by omega
      have h0 : rf.registers[0]? = some (Reg.init 32) := by
        rw [← List.head?_eq_getElem?]
        exact h1
      rw [List.head?_eq_getElem?, List.getElem?_modify, h0]
      simp [hne]
    · cases hw

theorem reg0Pristine_clock_edge (rf : RegisterFile) (h : reg0Pristine rf) :
    reg0Pristine rf.clock_edge := by
  obtain ⟨h1, h2⟩ := h
  refine ⟨?_, h2⟩
  unfold RegisterFile.clock_edge
  simp only [List.head?_map, h1, Option.map_some]
  rfl

theorem reg0Pristine_applyRFOp (rf : RegisterFile) (op : RFOp)
    (h : reg0Pristine rf) : reg0Pristine (applyRFOp rf op) := by
  cases op with
  | write0 data enable =>
    have hw : rf.write 0 data enable = some rf := by
      unfold RegisterFile.write
      rw [if_pos rfl]
    simp only [applyRFOp, hw, Option.getD_some]
    exact h
  | clockEdge => exact reg0Pristine_clock_edge rf h

theorem reg0Pristine_foldl (ops : List RFOp) (rf : RegisterFile)
    (h : reg0Pristine rf) : reg0Pristine (ops.foldl applyRFOp rf) := by
  induction ops generalizing rf with
  | nil => exact h
  | cons op rest ih => exact ih _ (reg0Pristine_applyRFOp rf op h)

/-- One CPU cycle never disturbs register 0. -/
theorem execute_cycle_reg0 (s s1 : CPU) (b : Bool)
    (h : reg0Pristine s.reg_file) (he : s.execute_cycle = some (s1, b)) :
    reg0Pristine s1.reg_file := by
  unfold CPU.execute_cycle at he
  split at he
  · cases he
    exact h
  · split at he
    · cases he
      exact h
    · split at he
      · cases he
        exact h
      · simp only [Option.bind_eq_bind, Option.bind_eq_some] at he
        obtain ⟨decoded, hdec, he⟩ := he
        split at he
        · cases he
          exact h
        · simp only [Option.bind_eq_bind, Option.bind_eq_some] at he
          obtain ⟨rs1d, hrs1, he⟩ := he
          obtain ⟨rs2d, hrs2, he⟩ := he
          obtain ⟨alures, halu, he⟩ := he
          split at he
          · simp only [Option.bind_eq_some] at he
            obtain ⟨rf1, hrf1, he⟩ := he
            cases he
            exact reg0Pristine_clock_edge _
              (reg0Pristine_write _ _ _ _ _ hrf1 h)
          · simp only [Option.some_bind] at he
            cases he
            exact reg0Pristine_clock_edge _ h

/-- Iterated cycles never disturb register 0. -/
theorem steps_reg0 (n : Nat) (s : CPU) (h : reg0Pristine s.reg_file) :
    reg0Pristine (CPU.steps n s).reg_file := by
  induction n generalizing s with
  | zero => exact h
  | succ m ih =>
    unfold CPU.steps
    rcases he : s.execute_cycle with _ | ⟨s1, b⟩
    · exact h
    · exact ih s1 (execute_cycle_reg0 s s1 b h he)

/-- Claim C2: register 0 reads as the 32-bit all-zeros vector after any
sequence of register-file operations (writes to address 0 with any data and
enable, clock edges), and at every cycle of every program run on the CPU
(any loaded program, any number of executed cycles). -/
theorem claim_C2_x0_reads_zero :
    (∀ ops : List RFOp,
      (ops.foldl applyRFOp (RegisterFile.init 32 32)).read 0 =
        some (List.replicate 32 false)) ∧
    (∀ (instructions : List (List Bool)) (start : Int) (c0 : CPU),
      CPU.init.load_program instructions start = some c0 →
      ∀ n : Nat, (CPU.steps n c0).reg_file.read 0 =
        some (List.replicate 32 false)) := by
  constructor
  · intro ops
    exact reg0_read_zero _ (reg0Pristine_foldl ops _ reg0Pristine_init)
  · intro instructions start c0 hload n
    have hrf : c0.reg_file = CPU.init.reg_file := by
      unfold CPU.load_program at hload
      rcases hm : CPU.init.imem.load_program instructions start with _ | m
      · rw [hm] at hload
        cases hload
      · rw [hm] at hload
        cases hload
        rfl
    have h0 : reg0Pristine c0.reg_file := by
      rw [hrf]
      exact reg0Pristine_init
    exact reg0_read_zero _ (steps_reg0 n c0 h0)

/-- Claim C10: with halted false and an unaligned PC, `execute_cycle`
raises no exception: the fetch fault is caught, halted is set, `false` is
returned, and the PC, register file, both memories and both counters are
unchanged. -/
theorem claim_C10_unaligned_pc_halts (s : CPU) (hh : s.halted = false)
    (hpc : s.pc % 4 ≠ 0) :
    s.execute_cycle = some ({ s with halted := true }, false) := by
  unfold CPU.execute_cycle
  rw [hh]
  have hread : s.imem.read s.pc = none := by
    unfold InstructionMemory.read
    rw [if_pos hpc]
  simp only [Bool.false_eq_true, if_false, hread]

/-- Claim C8 (amended): a `RegisterFile.write` with `enable = true` to an
address in 1..31 stores the data immediately: `read` returns the newly
written value before any `clock_edge`. -/
theorem claim_C8_write_immediately_visible (rf : RegisterFile) (a : Int)
    (data : List Bool) (h1 : 1 ≤ a) (h2 : a < (rf.num_regs : Int))
    (hlen : rf.registers.length = rf.num_regs)
    (hw : ∀ r ∈ rf.registers, r.width = 32) (hdata : data.length = 32) :
    ∃ rf1, rf.write a data true = some rf1 ∧ rf1.read a = some data := by
  have hane : a ≠ 0 := by omega
  have hwrite : rf.write a data true = some { rf with
      registers := rf.registers.modify (fun r => r.load data true) a.toNat } := by
    unfold RegisterFile.write
    rw [if_neg hane, if_pos ⟨by omega, h2⟩]
  refine ⟨_, hwrite, ?_⟩
  unfold RegisterFile.read
  rw [if_pos ⟨by omega, by exact h2⟩]
  have hidx : a.toNat < rf.registers.length := by
    rw [hlen]
    omega
  obtain ⟨r, hr⟩ : ∃ r, rf.registers[a.toNat]? = some r :=
    ⟨_, List.getElem?_eq_getElem hidx⟩
  have hmem : r ∈ rf.registers := by
    have h2' := List.getElem?_eq_getElem hidx
    rw [h2'] at hr
    obtain rfl := Option.some_inj.mp hr
    exact List.getElem_mem hidx
  have hwidth : r.width = 32 := hw r hmem
  rw [List.getD_eq_getElem?_getD, List.getElem?_modify]
  rw [List.getElem?_eq_getElem hidx] at hr ⊢
  obtain rfl := Option.some_inj.mp hr
  simp [Reg.load, hdata, hwidth]

/- ------------------------------------------------------------------ -/
/- Concrete instruction words and failing-input evaluations           -/
/- ------------------------------------------------------------------ -/

/-- The halt-sentinel word `JAL x0, 0` (0x0000006F) of the spec's halt
protocol. -/
def jal_x0_0_word : List Bool :=
  (from_hex_chars ['0', '0', '0', '0', '0', '0', '6', 'F'] 32).toOption.getD []

/-- A fresh CPU whose instruction memory holds only `0x0000006F` at the
initial PC. -/
def cpu_jal_halt_test : CPU :=
  { CPU.init with
    imem := { size := 1024, base_address := 0, memory := [(0, jal_x0_0_word)] } }

/-- Claim C4 (failing input): executing one cycle whose fetched word is
`0x0000006F` (`JAL x0, 0`) does NOT set halted.  The opcode `0x6F` is read
back signed as -17, so the word is classified UNKNOWN (the JAL halt check
never fires), and the cycle then dies on the uncaught AttributeError of
`self.alu.execute` (`none`): the exception escapes `execute_cycle`,
leaving halted false and the PC unchanged - the CPU does not halt on this
word. -/
theorem claim_C4_jal_x0_0_does_not_halt :
    bits_to_nat jal_x0_0_word = 0x0000006F ∧
    (InstructionDecoder.decode jal_x0_0_word).map
      InstructionDecoder.get_instruction_name = some "UNKNOWN" ∧
    cpu_jal_halt_test.execute_cycle = none := by
  decide

/-- The word `ADDI x1, x0, 10` (0x00A00093). -/
def addi_x1_x0_10_word : List Bool :=
  (from_hex_chars ['0', '0', 'A', '0', '0', '0', '9', '3'] 32).toOption.getD []

/-- Modelled from the spec and the claim: the standard RV32I I-immediate,
the sign-extension of instruction bits 31..20 - the first twelve entries of
the MSB-first word. -/
def standard_imm_i_sext (instr : List Bool) : List Bool :=
  sign_extend (instr.take 12) 32

/-- Claim C1 (failing input): decoding `ADDI x1, x0, 10` produces an
I-immediate of 147 (the decoder slices instruction bits 11..0, the
`{rd, opcode}` fields), while the standard RV32I I-immediate - bits
31..20 sign-extended - is 10. -/
theorem claim_C1_imm_i_not_standard :
    bits_to_nat addi_x1_x0_10_word = 0x00A00093 ∧
    (InstructionDecoder.decode addi_x1_x0_10_word).map
      (fun d => bits_to_int d.imm_i_sext) = some 147 ∧
    bits_to_int (standard_imm_i_sext addi_x1_x0_10_word) = 10 ∧
    (147 : Int) ≠ 10 := by
  decide

/-- Claim C5 (counterexample): for a = b = 0xFFFFFFFF, `mulhu` returns 0
in rd (the signed product is (-1)·(-1) = 1, whose high half is 0), whereas
the upper 32 bits of the unsigned product are 0xFFFFFFFE. -/
theorem claim_C5_counterexample :
    (mdu32.mulhu (List.replicate 32 true) (List.replicate 32 true)).map
      (fun r => bits_to_nat r.rd) = some 0 ∧
    bits_to_nat (List.replicate 32 true) *
      bits_to_nat (List.replicate 32 true) / 2 ^ 32 = 0xFFFFFFFE ∧
    (0 : Nat) ≠ 0xFFFFFFFE := by
  constructor
  · rfl
  · decide

/-- Claim C7 (counterexample): for a = b = 0 the subtractor's carry is 0,
although no borrow occurs (`unsigned(a) ≥ unsigned(b)`) and the carry-out
of `a + ¬b + 1` is 1; the claim's predicted C = 1 is wrong at b = 0. -/
theorem claim_C7_counterexample :
    (adder32.subtract (List.replicate 32 false) (List.replicate 32 false)).map
      Prod.snd = some false ∧
    bits_to_nat (List.replicate 32 false) ≤
      bits_to_nat (List.replicate 32 false) ∧
    false ≠ true := by
  decide

/-- Claim C8 (counterexample): on a fresh register file, writing all-ones
to x1 with enable = true makes `read 1` return the all-ones vector
immediately, before any `clock_edge` - not the previously latched zeros
the claim predicts. -/
theorem claim_C8_counterexample :
    (RegisterFile.init 32 32).read 1 = some (List.replicate 32 false) ∧
    ((RegisterFile.init 32 32).write 1 (List.replicate 32 true) true).map
      (fun rf => rf.read 1) = some (some (List.replicate 32 true)) ∧
    List.replicate 32 true ≠ List.replicate 32 false := by
  decide

/-- Claim C9 (counterexample): a line consisting only of a comment is not
ignored - it is a load-time error (the blank-line check runs before the
comment is stripped, so the emptied line fails the 8-digit check). -/
theorem claim_C9_counterexample :
    load_hex_lines [['#', ' ', 'c']] =
      .error "Line 1: Expected 8 hex digits, got 0: " ∧
    (Except.error "Line 1: Expected 8 hex digits, got 0: " ≠
      (.ok [] : Except String (List (List Bool)))) := by
  constructor
  · rfl
  · intro h
    cases h

/-- Claim C9 (amended): the loader skips blank lines; `#` begins a line
comment on a non-blank line, but a line that the comment strip empties is
a load-time error naming the line number; after the optional `0x`/`0X`
prefix the line must hold exactly 8 characters, a wrong count or an
invalid hex character being a load-time error naming the line number; a
valid line contributes its 32-bit word. -/
theorem claim_C9_loader_line_protocol (n : Nat) (line : Line)
    (rest : List Line) :
    (stripChars line = [] →
      loadHexAux n (line :: rest) = loadHexAux (n + 1) rest) ∧
    (stripChars line ≠ [] →
      (let line2 := if (stripChars line).contains '#'
        then stripChars ((stripChars line).takeWhile fun c => c ≠ '#')
        else stripChars line
       let line3 : Line := match line2 with
        | '0' :: 'x' :: r => r
        | '0' :: 'X' :: r => r
        | other => other
      (line3.length ≠ 8 →
        loadHexAux n (line :: rest) = .error ("Line " ++ toString n ++
          ": Expected 8 hex digits, got " ++ toString line3.length ++ ": " ++
          String.mk line3)) ∧
      (∀ instruction, line3.length = 8 →
        from_hex_chars ('0' :: 'x' :: line3) 32 = .ok instruction →
        loadHexAux n (line :: rest) =
          (loadHexAux (n + 1) rest).map fun instrs => instruction :: instrs) ∧
      (∀ e, line3.length = 8 →
        from_hex_chars ('0' :: 'x' :: line3) 32 = .error e →
        loadHexAux n (line :: rest) = .error ("Line " ++ toString n ++
          ": Invalid hex: " ++ String.mk line3 ++ " - " ++ e)))) := by
  constructor
  · intro h
    simp only [loadHexAux]
    rw [if_pos h]
  · intro h
    refine ⟨?_, ?_, ?_⟩
    · intro hlen
      simp only [loadHexAux]
      rw [if_neg h, if_pos hlen]
    · intro instruction hlen hok
      simp only [loadHexAux]
      rw [if_neg h, if_neg (by omega), hok]
    · intro e hlen herr
      simp only [loadHexAux]
      rw [if_neg h, if_neg (by omega), herr]

/- ------------------------------------------------------------------ -/
/- Witnesses                                                          -/
/- ------------------------------------------------------------------ -/

/-- A 32-bit vector of value 1. -/
def one32 : List Bool := List.replicate 31 false ++ [true]

theorem claim_C2_witness :
    (([RFOp.write0 (List.replicate 32 true) true].foldl applyRFOp
      (RegisterFile.init 32 32)).read 0 = some (List.replicate 32 false)) ∧
    CPU.init.load_program [] 0 = some CPU.init ∧
    (CPU.steps 2 CPU.init).reg_file.read 0 = some (List.replicate 32 false) :=
  ⟨claim_C2_x0_reads_zero.1 [RFOp.write0 (List.replicate 32 true) true],
   by decide,
   claim_C2_x0_reads_zero.2 [] 0 CPU.init (by decide) 2⟩

theorem claim_C3_witness :
    (List.replicate 32 false).length = 32 ∧
    (-(2 : Int) ^ 31 ≤ bits_to_int (List.replicate 32 false) +
      bits_to_int (List.replicate 32 false)) ∧
    (bits_to_int (List.replicate 32 false) +
      bits_to_int (List.replicate 32 false) < 2 ^ 31) ∧
    alu32.add (List.replicate 32 false) (List.replicate 32 false) = none :=
  ⟨rfl, by decide, by decide,
   claim_C3_alu_add_raises (List.replicate 32 false)
     (List.replicate 32 false) rfl rfl⟩

theorem claim_C5_witness :
    (List.replicate 32 true).length = 32 ∧
    (mdu32.mulhu (List.replicate 32 true) (List.replicate 32 true) =
      mdu32.mulh (List.replicate 32 true) (List.replicate 32 true) ∧
    ∃ res, mdu32.mulhu (List.replicate 32 true) (List.replicate 32 true) =
        some res ∧
      (bits_to_nat res.rd : Int) =
        (bits_to_int (List.replicate 32 true) *
          bits_to_int (List.replicate 32 true)) % 2 ^ 64 / 2 ^ 32) :=
  ⟨rfl, claim_C5_mulhu_signed_high (List.replicate 32 true)
    (List.replicate 32 true) rfl rfl⟩

theorem claim_C6_witness :
    (List.replicate 32 false).length = 32 ∧ one32.length = 32 ∧
    bits_to_int one32 ≠ 0 ∧
    ¬ (true = true ∧ bits_to_int (List.replicate 32 false) = -(2 : Int) ^ 31 ∧
      bits_to_int one32 = -1) ∧
    (∃ res, mdu32.divider.divide (List.replicate 32 false) one32 true =
        some res ∧ res.overflow = 0 ∧
      (true = true →
        bits_to_int res.quotient =
          (bits_to_int (List.replicate 32 false)).tdiv (bits_to_int one32) ∧
        bits_to_int res.remainder =
          (bits_to_int (List.replicate 32 false)).tmod (bits_to_int one32) ∧
        bits_to_int (List.replicate 32 false) =
          bits_to_int res.quotient * bits_to_int one32 +
          bits_to_int res.remainder) ∧
      (true = false →
        bits_to_nat res.quotient =
          bits_to_nat (List.replicate 32 false) / bits_to_nat one32 ∧
        bits_to_nat res.remainder =
          bits_to_nat (List.replicate 32 false) % bits_to_nat one32 ∧
        bits_to_nat (List.replicate 32 false) =
          bits_to_nat res.quotient * bits_to_nat one32 +
          bits_to_nat res.remainder)) :=
  ⟨rfl, by decide, by decide, by decide,
   claim_C6_division_identity (List.replicate 32 false) one32 true rfl
     (by decide) (by decide) (by decide)⟩

theorem claim_C7_witness :
    (List.replicate 32 false).length = 32 ∧ one32.length = 32 ∧
    (∃ r, adder32.subtract (List.replicate 32 false) one32 = some r ∧
      (bits_to_nat one32 ≠ 0 →
        r.2 = decide (bits_to_nat one32 ≤ bits_to_nat (List.replicate 32 false))) ∧
      (bits_to_nat one32 = 0 → r.2 = false)) :=
  ⟨rfl, by decide,
   claim_C7_subtract_carry (List.replicate 32 false) one32 rfl (by decide)⟩

theorem claim_C8_witness :
    (1 : Int) ≤ 1 ∧ ((1 : Int) < ((RegisterFile.init 32 32).num_regs : Int)) ∧
    (RegisterFile.init 32 32).registers.length =
      (RegisterFile.init 32 32).num_regs ∧
    (∀ r ∈ (RegisterFile.init 32 32).registers, r.width = 32) ∧
    (List.replicate 32 true).length = 32 ∧
    (∃ rf1, (RegisterFile.init 32 32).write 1 (List.replicate 32 true) true =
        some rf1 ∧ rf1.read 1 = some (List.replicate 32 true)) :=
  ⟨le_refl 1, by decide, by decide, by decide, rfl,
   claim_C8_write_immediately_visible (RegisterFile.init 32 32) 1
     (List.replicate 32 true) (le_refl 1) (by decide) (by decide) (by decide)
     rfl⟩

theorem claim_C9_witness :
    stripChars [' '] = [] ∧
    loadHexAux 1 ([' '] :: []) = loadHexAux 2 [] :=
  ⟨by decide, (claim_C9_loader_line_protocol 1 [' '] []).1 (by decide)⟩

theorem claim_C10_witness :
    ({ CPU.init with pc := 1 } : CPU).halted = false ∧
    ({ CPU.init with pc := 1 } : CPU).pc % 4 ≠ 0 ∧
    ({ CPU.init with pc := 1 } : CPU).execute_cycle =
      some ({ { CPU.init with pc := 1 } with halted := true }, false) :=
  ⟨rfl, by decide,
   claim_C10_unaligned_pc_halts { CPU.init with pc := 1 } rfl (by decide)⟩
